import Mathlib

/-!
Verification development for the `w100n-structure-websites` plugin.

The Go source stores JSON-like documents (`map[string]interface{}` trees as
decoded from BSON/JSON) and manipulates them with:

* `buildTemplateValue` / `mergeTemplateValues` / `copyTemplateValue` /
  `toTemplateMap` / `toTemplateSlice` / `sanitizeTemplateDocument`
  (the template sanitizer and its skeleton merge),
* `mergeJSONDocuments` (the payload merge of `UpdateStructureWebsite`),
* `prepareTemplateDocument` / `ApplyStructureTemplate` (identity resolution
  and the cross-tenant fan-out), and
* `UpdateStructureWebsite` (guarded single-document replace).

We embed the dynamic Go value universe as the nested inductive `GoVal`.
Go maps (`map[string]interface{}`) are represented as association lists with
map-like access (`lookupOpt` / `insertKey`): a Go map can never hold a
duplicate key, and `insertKey` updates in place, so association lists built
through `insertKey` behave exactly like Go maps.  A Go `nil` interface value
(which is what a decoded JSON `null` is) is `GoVal.vnull`.
`primitive.M` / `primitive.A` are the same data as `map[string]interface{}` /
`[]interface{}` in this universe, so the source branches converting them are
identity conversions here.
-/

/-- A 12-byte MongoDB ObjectID (`primitive.ObjectID`), as its byte list. -/
abbrev ObjectID := List Nat

/-- The dynamic value universe of the Go code: everything that can appear in a
decoded document tree.  `vfloat` carries an opaque payload: the sanitizer only
ever pattern-matches on the float case, never computes with the float. -/
inductive GoVal where
  | vnull
  | vstr (s : String)
  | vbool (b : Bool)
  | vint (n : Int)
  | vfloat (bits : Nat)
  | vobjid (oid : ObjectID)
  | vobj (fields : List (String × GoVal))
  | varr (items : List GoVal)

/-- A document: a Go `map[string]interface{}` as an association list. -/
abbrev Doc := List (String × GoVal)

/-- The Go `value == nil` test on an `interface{}` value. -/
def GoVal.isNull : GoVal → Bool
  | .vnull => true
  | _ => false

/-- Go map read with presence flag: `v, ok := m[key]`. -/
def lookupOpt : Doc → String → Option GoVal
  | [], _ => none
  | (k, v) :: rest, key => if k = key then some v else lookupOpt rest key

/-- Go map read without presence flag: `m[key]` yields the nil interface when
the key is absent. -/
def lookupOrNull (m : Doc) (key : String) : GoVal :=
  match lookupOpt m key with
  | some v => v
  | none => .vnull

/-- Go map write `m[key] = v`: updates the entry in place, or appends a new
entry.  Keeps key sets duplicate-free, like a Go map. -/
def insertKey : Doc → String → GoVal → Doc
  | [], key, v => [(key, v)]
  | (k, w) :: rest, key, v =>
      if k = key then (key, v) :: rest else (k, w) :: insertKey rest key v

/-- The key set of a document, as a list. -/
def keysOf (m : Doc) : List String := m.map Prod.fst

/-! ### `copyTemplateValue` (resolvers.go)

    Deep copy of a template value.  Under value semantics the copy is equal to
    the original (proved below as `copyTemplateValue_eq`). -/

mutual

def copyTemplateValue : GoVal → GoVal
  | .vobj fields => .vobj (copyFields fields)
  | .varr items => .varr (copyItems items)
  | v => v

def copyFields : Doc → Doc
  | [] => []
  | (k, v) :: rest => (k, copyTemplateValue v) :: copyFields rest

def copyItems : List GoVal → List GoVal
  | [] => []
  | v :: rest => copyTemplateValue v :: copyItems rest

end

/-- `cloneMap` / `deepCopyValue` (resolvers.go): a deep copy of a document.
On this value universe `deepCopyValue` coincides with `copyTemplateValue`
(the extra `primitive.M` / `primitive.A` branches are identity conversions). -/
def cloneMap (src : Doc) : Doc := copyFields src

/-- `toTemplateMap` (resolvers.go): view a merged value as a map — a map
itself, the first element of a slice when that element is a map, otherwise
an empty map. -/
def toTemplateMap : GoVal → Doc
  | .vobj f => f
  | .varr [] => []
  | .varr (first :: _) =>
      match first with
      | .vobj f => f
      | _ => []
  | _ => []

/-- `toTemplateSlice` (resolvers.go): view a merged value as a slice — a slice
itself, a map becomes a one-element slice, nil becomes empty, any other value
becomes a one-element slice holding its copy. -/
def toTemplateSlice : GoVal → List GoVal
  | .varr l => l
  | .vobj f => [.vobj f]
  | .vnull => []
  | v => [copyTemplateValue v]

/-- First element of a Go slice read as `s[0]`, nil when the slice is empty
(the source only reads `s[0]` after a length check; missing sides of the
array fold are treated as nil). -/
def headOrNull : List GoVal → GoVal
  | [] => .vnull
  | x :: _ => x

/-! Executable structural size of a value, used only as a fuel bound for the
non-structural recursion of `mergeTemplateValues`. -/

mutual

def goSize : GoVal → Nat
  | .vobj fields => 1 + goSizeFields fields
  | .varr items => 1 + goSizeItems items
  | _ => 1

def goSizeFields : Doc → Nat
  | [] => 1
  | (_, v) :: rest => 1 + goSize v + goSizeFields rest

def goSizeItems : List GoVal → Nat
  | [] => 1
  | v :: rest => 1 + goSize v + goSizeItems rest

end

/-! ### `mergeTemplateValues` (resolvers.go)

    The skeleton merge.  Its recursion descends through computed values
    (`b[key]`, `toTemplateMap`, `toTemplateSlice`), which is not structural,
    so we define it on an explicit fuel that is structurally consumed and
    instantiate the fuel with a sufficient bound (`sizeOf base + sizeOf
    incoming`); `mergeAux_stable` below proves the result is independent of
    the fuel once the fuel is at least that bound, and the equation lemmas
    `mergeTemplateValues_null_left` … restate the source's case analysis
    fuel-free.

    In the map case the Go code mutates `b` while ranging over the incoming
    map; because a Go map never repeats a key, each `b[key]` it reads is the
    original entry of `b`, which is what `mergeObjAux orig acc inc` captures
    by looking keys up in the unchanged `orig` while accumulating into
    `acc` (both start as `b`). -/

mutual

def mergeAux : Nat → GoVal → GoVal → GoVal
  | 0, _, _ => .vnull
  | _ + 1, .vnull, incoming => copyTemplateValue incoming
  | f + 1, .vobj bf, incoming =>
      if incoming.isNull then .vobj bf
      else .vobj (mergeObjAux f bf bf (toTemplateMap incoming))
  | f + 1, .varr bl, incoming =>
      if incoming.isNull then .varr bl
      else
        let incomingSlice := toTemplateSlice incoming
        if bl.length = 0 ∧ incomingSlice.length = 0 then .varr []
        else
          let merged := mergeAux f (headOrNull bl) (headOrNull incomingSlice)
          if merged.isNull then .varr [] else .varr [merged]
  | _ + 1, base, _ => base

def mergeObjAux : Nat → Doc → Doc → Doc → Doc
  | 0, _, acc, _ => acc
  | _ + 1, _, acc, [] => acc
  | f + 1, orig, acc, (k, v) :: rest =>
      mergeObjAux f orig (insertKey acc k (mergeAux f (lookupOrNull orig k) v)) rest

end

/-- `mergeTemplateValues(base, incoming)` of the source. -/
def mergeTemplateValues (base incoming : GoVal) : GoVal :=
  mergeAux (goSize base + goSize incoming) base incoming

/-- The map-merging loop of `mergeTemplateValues`, fuel-free. -/
def mergeObjFields (orig acc inc : Doc) : Doc :=
  mergeObjAux (goSizeFields orig + goSizeFields inc) orig acc inc

/-! ### `buildTemplateValue` / `sanitizeTemplateDocument` (resolvers.go)

    The sanitizer: reduce a document tree to its structural skeleton.
    The Go map case builds `result` by ranging over the source map and doing
    `result[key] = mergeTemplateValues(result[key], buildTemplateValue(raw))`;
    `buildObjFields` is that loop with `result` as the accumulator.  The Go
    slice case folds all built elements into one representative
    (`buildArrFold`, starting from the nil interface). -/

mutual

def buildTemplateValue : GoVal → GoVal
  | .vobj fields => .vobj (buildObjFields [] fields)
  | .varr items =>
      let element := buildArrFold .vnull items
      if element.isNull then .varr [] else .varr [element]
  | .vstr _ => .vstr ""
  | .vnull => .vstr ""
  | .vbool _ => .vbool false
  | .vint _ => .vint 0
  | .vfloat _ => .vint 0
  | .vobjid _ => .vstr ""

def buildObjFields : Doc → Doc → Doc
  | result, [] => result
  | result, (key, raw) :: rest =>
      buildObjFields
        (insertKey result key
          (mergeTemplateValues (lookupOrNull result key) (buildTemplateValue raw)))
        rest

def buildArrFold : GoVal → List GoVal → GoVal
  | element, [] => element
  | element, item :: rest =>
      buildArrFold (mergeTemplateValues element (buildTemplateValue item)) rest

end

/-- `sanitizeTemplateDocument(doc)` of the source: build the template value of
the whole document and return it as a map (the build of a map is always a
map, so the fallback to an empty map is dead code, kept for fidelity). -/
def sanitizeTemplateDocument (doc : Doc) : Doc :=
  match buildTemplateValue (.vobj doc) with
  | .vobj mapped => mapped
  | _ => []

/-! ### `mergeJSONDocuments` (functions file)

    The payload merge of `UpdateStructureWebsite`.  The Go code ranges over
    `updates` mutating `base`; as with the skeleton merge, a Go map never
    repeats a key, so reads of `base[k]` see the original entries, which
    `mergeJSONFields orig acc updates` captures (both start as `base`). -/

/-- The Go type assertion `base[k].(map[string]interface{})` with the
`make(map[string]interface{})` fallback when the assertion fails. -/
def asMapOrEmpty : GoVal → Doc
  | .vobj f => f
  | _ => []

def mergeJSONAux : Nat → Doc → Doc → Doc → Doc
  | 0, _, acc, _ => acc
  | f + 1, orig, acc, upd =>
      match upd with
      | [] => acc
      | (k, v) :: rest =>
          if k = "_id" then mergeJSONAux f orig acc rest
          else
            match v with
            | .vobj vf =>
                let baseMap := asMapOrEmpty (lookupOrNull orig k)
                mergeJSONAux f orig
                  (insertKey acc k (.vobj (mergeJSONAux f baseMap baseMap vf))) rest
            | _ => mergeJSONAux f orig (insertKey acc k v) rest

/-- The update loop of `mergeJSONDocuments`, fuel-free: the recursion descends
both into the update list and into the base looked up at the current key,
which is not structural, so as with the skeleton merge we consume explicit
fuel and instantiate it with the sufficient bound `goSizeFields upd`
(`mergeJSONAux_stable` below). -/
def mergeJSONFields (orig acc upd : Doc) : Doc :=
  mergeJSONAux (goSizeFields upd) orig acc upd

/-- `mergeJSONDocuments(base, updates)` of the source (a nil base map acts as
the empty association list). -/
def mergeJSONDocuments (base updates : Doc) : Doc :=
  mergeJSONFields base base updates

/-! ### Identity resolution (`prepareTemplateDocument`) -/

/-- Go's `unicode.IsSpace`, i.e. the code points of `unicode.White_Space`,
used by `strings.TrimSpace`. -/
def isGoSpace (c : Char) : Bool :=
  c.toNat = 0x09 ∨ c.toNat = 0x0A ∨ c.toNat = 0x0B ∨ c.toNat = 0x0C ∨
  c.toNat = 0x0D ∨ c.toNat = 0x20 ∨ c.toNat = 0x85 ∨ c.toNat = 0xA0 ∨
  c.toNat = 0x1680 ∨ (0x2000 ≤ c.toNat ∧ c.toNat ≤ 0x200A) ∨
  c.toNat = 0x2028 ∨ c.toNat = 0x2029 ∨ c.toNat = 0x202F ∨
  c.toNat = 0x205F ∨ c.toNat = 0x3000

/-- Go `strings.TrimSpace`: drop leading and trailing white space. -/
def goTrimSpace (s : String) : String :=
  ⟨((s.data.dropWhile isGoSpace).reverse.dropWhile isGoSpace).reverse⟩

/-- Value of a hexadecimal digit character, as `encoding/hex` accepts it. -/
def hexVal (c : Char) : Option Nat :=
  if '0' ≤ c ∧ c ≤ '9' then some (c.toNat - '0'.toNat)
  else if 'a' ≤ c ∧ c ≤ 'f' then some (c.toNat - 'a'.toNat + 10)
  else if 'A' ≤ c ∧ c ≤ 'F' then some (c.toNat - 'A'.toNat + 10)
  else none

/-- `hex.Decode`: decode pairs of hex digits into bytes; fails on a non-digit
or an odd length. -/
def decodeHex : List Char → Option (List Nat)
  | [] => some []
  | [_] => none
  | c1 :: c2 :: rest =>
      match hexVal c1, hexVal c2, decodeHex rest with
      | some hi, some lo, some bytes => some ((hi * 16 + lo) :: bytes)
      | _, _, _ => none

/-- `primitive.ObjectIDFromHex`: a valid ObjectID hex string has exactly 24
characters, all hexadecimal digits. -/
def ObjectIDFromHex (s : String) : Option ObjectID :=
  if s.length = 24 then decodeHex s.data else none

/-- `prepareTemplateDocument(doc)` of the source: sanitize the document and
resolve its identity.  `primitive.NewObjectID()` is nondeterministic fresh-ID
generation; we model it by a generator `gen` indexed by a counter `ctr` that
the caller threads through, returning the next counter value. -/
def prepareTemplateDocument (gen : Nat → ObjectID) (ctr : Nat) (doc : Doc) :
    Except String (Doc × ObjectID × Nat) :=
  let sanitized := sanitizeTemplateDocument doc
  match lookupOpt doc "_id" with
  | some (.vstr s) =>
      let v := goTrimSpace s
      if v = "" then .ok (insertKey sanitized "_id" (.vobjid (gen ctr)), gen ctr, ctr + 1)
      else
        match ObjectIDFromHex v with
        | none => .error ("invalid _id value " ++ v)
        | some objectID =>
            .ok (insertKey sanitized "_id" (.vobjid objectID), objectID, ctr)
  | some (.vobjid oid) => .ok (insertKey sanitized "_id" (.vobjid oid), oid, ctr)
  | some _ => .error "_id must be a hex string or ObjectID"
  | none => .ok (insertKey sanitized "_id" (.vobjid (gen ctr)), gen ctr, ctr + 1)

/-- The sanitizing loop of `ApplyStructureTemplate`: skip nil entries, prepare
each document (threading the fresh-ID counter and the running index used in
the error message), collecting the sanitized documents and their IDs. -/
def prepareAll (gen : Nat → ObjectID) :
    Nat → Nat → List (Option Doc) → Except String (List Doc × List ObjectID × Nat)
  | _, ctr, [] => .ok ([], [], ctr)
  | idx, ctr, none :: rest => prepareAll gen (idx + 1) ctr rest
  | idx, ctr, some doc :: rest =>
      match prepareTemplateDocument gen ctr doc with
      | .error e => .error ("document " ++ toString idx ++ ": " ++ e)
      | .ok (sanitized, docID, ctr1) =>
          match prepareAll gen (idx + 1) ctr1 rest with
          | .error e => .error e
          | .ok (docs, ids, ctr2) => .ok (sanitized :: docs, docID :: ids, ctr2)

/-- `TemplateApplySummary` of the source. -/
structure TemplateApplySummary where
  TemplateKey : String
  TargetField : String
  ClientNames : List String
  UpdatedDocuments : Nat
  DeletedDocuments : Nat

/-- The persistent state `ApplyStructureTemplate` touches: the shared `core`
database's `db_clients` and `structure_templates` collections, and the
`structure_websites` collection of every tenant database, keyed by tenant
(client) name.  A tenant database absent from the list reads as an empty
collection, like an untouched MongoDB database.  The stored template record's
`updated_at` wall-clock timestamp is outside the model. -/
structure CoreState where
  dbClients : List Doc
  structureTemplates : List (String × List Doc)
  tenantCollections : List (String × List Doc)

/-- Read a named entry of a string-keyed collection table (empty if absent). -/
def collGet : List (String × List Doc) → String → List Doc
  | [], _ => []
  | (k, c) :: rest, key => if k = key then c else collGet rest key

/-- Write a named entry of a string-keyed collection table (upsert). -/
def collSet : List (String × List Doc) → String → List Doc → List (String × List Doc)
  | [], key, c => [(key, c)]
  | (k, c0) :: rest, key, c =>
      if k = key then (key, c) :: rest else (k, c0) :: collSet rest key c

/-- The `_id` value of a stored document (in MongoDB every stored document has
one; reading an absent key as nil never matches any ObjectID filter). -/
def getId (d : Doc) : GoVal := lookupOrNull d "_id"

/-- Mongo's `{_id: v}` equality filter on a document. -/
def idIs (v : GoVal) (d : Doc) : Bool :=
  match getId d, v with
  | .vobjid a, .vobjid b => a = b
  | _, _ => false

/-- `collection.ReplaceOne(ctx, {_id: idv}, doc, upsert)`: replace the (at
most one) matching document, or insert `doc` when nothing matches. -/
def replaceOneUpsert (coll : List Doc) (idv : GoVal) (doc : Doc) : List Doc :=
  match coll with
  | [] => [doc]
  | d :: rest => if idIs idv d then doc :: rest else d :: replaceOneUpsert rest idv doc

/-- Does the document's `_id` occur in the template-ID list?  (The filter of
the `DeleteMany` call, negated: `{_id: {$nin: templateIDs}}` deletes exactly
the documents for which this is false.) -/
def idAmong (ids : List ObjectID) (d : Doc) : Bool :=
  ids.any fun oid => idIs (.vobjid oid) d

/-- `collection.DeleteMany(ctx, {_id: {$nin: ids}})`: keep only documents
whose `_id` is among `ids`; also return the deleted count. -/
def deleteNotIn (ids : List ObjectID) : List Doc → List Doc × Nat
  | [] => ([], 0)
  | d :: rest =>
      let (kept, n) := deleteNotIn ids rest
      if idAmong ids d then (d :: kept, n) else (kept, n + 1)

/-- The per-tenant upsert loop: `ReplaceOne` (upsert) each template document
under its `_id`.  Each iteration clones the template document before writing. -/
def upsertAll : List Doc → List Doc → List Doc
  | [], coll => coll
  | d :: rest, coll =>
      upsertAll rest (replaceOneUpsert coll (getId (cloneMap d)) (cloneMap d))

/-- Mongo's `{field: key}` equality filter on a registration document. -/
def clientMatches (field key : String) (d : Doc) : Bool :=
  match lookupOrNull d field with
  | .vstr s => s = key
  | _ => false

/-- `clientsColl.CountDocuments(ctx, {field: key})`. -/
def countMatching (clients : List Doc) (field key : String) : Nat :=
  (clients.filter (clientMatches field key)).length

/-- Decoding the client cursor document into `struct { ClientName string }`:
an absent field decodes to the zero value `""`; a non-string value is a
decode error. -/
def decodeClientName (d : Doc) : Except String String :=
  match lookupOpt d "client_name" with
  | none => .ok ""
  | some (.vstr s) => .ok s
  | some _ => .error "failed to decode client document"

/-- The client fan-out loop of `ApplyStructureTemplate`: for every matched
registration, trim the client name (skip blanks), upsert every sanitized
document into that tenant's `structure_websites`, then delete every document
whose `_id` is not a template ID; accumulate counts and the client name. -/
def processClients (sanitizedDocs : List Doc) (templateIDs : List ObjectID) :
    List Doc → List (String × List Doc) → TemplateApplySummary →
    Except String (List (String × List Doc) × TemplateApplySummary)
  | [], tcolls, summary => .ok (tcolls, summary)
  | c :: rest, tcolls, summary =>
      match decodeClientName c with
      | .error e => .error e
      | .ok rawName =>
          let clientName := goTrimSpace rawName
          if clientName = "" then processClients sanitizedDocs templateIDs rest tcolls summary
          else
            let coll0 := collGet tcolls clientName
            let coll1 := upsertAll sanitizedDocs coll0
            let (coll2, deletedCount) := deleteNotIn templateIDs coll1
            processClients sanitizedDocs templateIDs rest
              (collSet tcolls clientName coll2)
              { summary with
                UpdatedDocuments := summary.UpdatedDocuments + sanitizedDocs.length
                DeletedDocuments := summary.DeletedDocuments + deletedCount
                ClientNames := summary.ClientNames ++ [clientName] }

/-- Lexicographic less-or-equal on character lists, as a computable boolean
(the order `sort.Strings` uses; UTF-8 byte order coincides with code-point
order). -/
def charListLe : List Char → List Char → Bool
  | [], _ => true
  | _ :: _, [] => false
  | a :: as, b :: bs =>
      if a < b then true else if b < a then false else charListLe as bs

/-- Lexicographic less-or-equal on strings (computable). -/
def goStrLe (a b : String) : Bool := charListLe a.data b.data

/-- Insert into a sorted list of strings (ascending). -/
def insertSorted (x : String) : List String → List String
  | [] => [x]
  | y :: rest => if goStrLe x y then x :: y :: rest else y :: insertSorted x rest

/-- `sort.Strings`: sort in ascending lexicographic order (insertion sort; for
a total order any sort yields this same list). -/
def sortStrings : List String → List String
  | [] => []
  | x :: rest => insertSorted x (sortStrings rest)

/-- `ApplyStructureTemplate(ctx, templateKey, documents, targetField)` of the
source.  External collaborators (the Mongo connection and its errors, role
checks, the request context) are out of scope: every database call succeeds.
`gen` models `primitive.NewObjectID()` as in `prepareTemplateDocument`. -/
def ApplyStructureTemplate (gen : Nat → ObjectID) (st : CoreState)
    (templateKey : String) (documents : List (Option Doc)) (targetField0 : String) :
    Except String (TemplateApplySummary × CoreState) :=
  if templateKey = "" then .error "templateKey is required"
  else if documents.length = 0 then .error "documents payload cannot be empty"
  else
    match prepareAll gen 0 0 documents with
    | .error e => .error e
    | .ok (sanitizedDocs, templateIDs, _) =>
        if sanitizedDocs.length = 0 then .error "no usable documents after sanitizing input"
        else
          let targetField := if targetField0 = "" then "structure_template" else targetField0
          let effectiveField :=
            if targetField = "structure_template" ∧
                countMatching st.dbClients targetField templateKey = 0
            then "template" else targetField
          let docsForStorage := sanitizedDocs.map cloneMap
          let st1 : CoreState :=
            { st with structureTemplates :=
                collSet st.structureTemplates templateKey docsForStorage }
          let matched := st1.dbClients.filter (clientMatches effectiveField templateKey)
          match processClients sanitizedDocs templateIDs matched st1.tenantCollections
              { TemplateKey := templateKey, TargetField := effectiveField,
                ClientNames := [], UpdatedDocuments := 0, DeletedDocuments := 0 } with
          | .error e => .error e
          | .ok (tcolls, summary) =>
              .ok ({ summary with ClientNames := sortStrings summary.ClientNames },
                   { st1 with tenantCollections := tcolls })

/-- Go `strings.ToLower` on the flag value: character-wise lowercasing
(`Char.toLower`; the guard only ever compares against the ASCII literal
"true", for which ASCII lowercasing coincides with Go's Unicode one). -/
def goToLower (s : String) : String := ⟨s.data.map Char.toLower⟩

/-- `collection.FindOne(ctx, {_id: objectID})` on the tenant collection. -/
def findById : List Doc → ObjectID → Option Doc
  | [], _ => none
  | d :: rest, oid => if idIs (.vobjid oid) d then some d else findById rest oid

/-- `UpdateStructureWebsite(ctx, id, payload)` of the source, acting on the
current tenant's `structure_websites` collection `coll`.  `localDevelopment`
is the `LOCAL_DEVELOPMENT` environment variable; a nil payload is `none`.
Returns the result together with the (possibly updated) collection; on error
the collection is unchanged — validation errors happen before any write. -/
def UpdateStructureWebsite (localDevelopment : String) (coll : List Doc)
    (id : String) (payload : Option Doc) : Except String Doc × List Doc :=
  if ¬ (goToLower localDevelopment = "true") then
    (.error "structure_websites mutation is available only when LOCAL_DEVELOPMENT=true", coll)
  else if id = "" then (.error "id is required", coll)
  else
    match payload with
    | none => (.error "payload cannot be nil", coll)
    | some p =>
        match ObjectIDFromHex id with
        | none => (.error "invalid id format", coll)
        | some objectID =>
            let existingDoc :=
              match findById coll objectID with
              | some d => d
              | none => [("_id", GoVal.vobjid objectID)]
            let doc := insertKey (mergeJSONDocuments existingDoc p) "_id" (.vobjid objectID)
            (.ok doc, replaceOneUpsert coll (.vobjid objectID) doc)

/-! ### Verification-side definitions (not from the source) -/

/-- The skeletons: exactly the value shapes the sanitizer can produce.  Scalar
zero values, duplicate-free objects of skeletons, and empty or one-element
arrays of skeletons. -/
inductive IsSkel : GoVal → Prop
  | str : IsSkel (.vstr "")
  | bool : IsSkel (.vbool false)
  | int : IsSkel (.vint 0)
  | obj : ∀ fields : Doc, (keysOf fields).Nodup → (∀ p ∈ fields, IsSkel p.2) →
      IsSkel (.vobj fields)
  | arrNil : IsSkel (.varr [])
  | arrOne : ∀ e, IsSkel e → IsSkel (.varr [e])

/-- The client names the fan-out loop collects from a list of registration
documents that decode successfully: decoded, trimmed, blanks dropped, in
registry order (used to state what `processClients` appends). -/
def clientNamesOf (clients : List Doc) : List String :=
  clients.filterMap fun c =>
    match lookupOpt c "client_name" with
    | none => none
    | some (.vstr s) => if goTrimSpace s = "" then none else some (goTrimSpace s)
    | some _ => none

/-- The target field after defaulting (`targetField == "" -> default`). -/
def targetFieldFor (targetField0 : String) : String :=
  if targetField0 = "" then "structure_template" else targetField0

/-- The effective flag field: the legacy fallback `"template"` replaces the
default field exactly when the default field is in use and matches no client. -/
def effectiveFieldFor (st : CoreState) (templateKey targetField0 : String) : String :=
  if targetFieldFor targetField0 = "structure_template" ∧
      countMatching st.dbClients (targetFieldFor targetField0) templateKey = 0
  then "template" else targetFieldFor targetField0

/-- A stored document with the given `_id` exists in the collection. -/
def hasId (coll : List Doc) (oid : ObjectID) : Bool :=
  coll.any fun d => idIs (.vobjid oid) d

/-! ## Basic lemmas -/

/-- The Go deep copy is the identity under value semantics (jointly for
values, field lists and item lists). -/
theorem copy_eq_joint :
    ∀ v, copyTemplateValue v = v := by
  apply copyTemplateValue.induct (fun v => copyTemplateValue v = v)
    (fun l => copyItems l = l) (fun f => copyFields f = f)
  · intro fields ih; simp [copyTemplateValue, ih]
  · intro items ih; simp [copyTemplateValue, ih]
  · intro v h1 h2
    cases v <;> first | rfl | exact absurd rfl (h1 _) | exact absurd rfl (h2 _)
  · rfl
  · intro k v rest ih1 ih2; simp [copyFields, ih1, ih2]
  · rfl
  · intro v rest ih1 ih2; simp [copyItems, ih1, ih2]

theorem copyFields_eq : ∀ f : Doc, copyFields f = f := by
  intro f
  induction f with
  | nil => rfl
  | cons p rest ih => cases p; simp [copyFields, ih, copy_eq_joint]

theorem copyItems_eq : ∀ l : List GoVal, copyItems l = l := by
  intro l
  induction l with
  | nil => rfl
  | cons v rest ih => simp [copyItems, ih, copy_eq_joint]

theorem cloneMap_eq (d : Doc) : cloneMap d = d := copyFields_eq d

/-- `isNull` decides equality with `vnull`. -/
theorem isNull_iff (v : GoVal) : v.isNull = true ↔ v = .vnull := by
  cases v <;> simp [GoVal.isNull]

theorem goSize_pos (v : GoVal) : 1 ≤ goSize v := by
  cases v <;> simp [goSize]

theorem goSizeFields_pos (f : Doc) : 1 ≤ goSizeFields f := by
  cases f with
  | nil => simp [goSizeFields]
  | cons p rest => cases p; simp [goSizeFields]; omega

theorem goSizeItems_pos (l : List GoVal) : 1 ≤ goSizeItems l := by
  cases l with
  | nil => simp [goSizeItems]
  | cons v rest => simp [goSizeItems]; omega

theorem goSize_lookupOrNull_le (m : Doc) (key : String) :
    goSize (lookupOrNull m key) ≤ goSizeFields m := by
  induction m with
  | nil => simp [lookupOrNull, lookupOpt, goSize, goSizeFields]
  | cons p rest ih =>
      obtain ⟨k, v⟩ := p
      by_cases hk : k = key
      · simp [lookupOrNull, lookupOpt, hk, goSizeFields]
        omega
      · simp only [lookupOrNull, lookupOpt, if_neg hk, goSizeFields] at *
        omega

theorem goSizeFields_toTemplateMap_le (v : GoVal) :
    goSizeFields (toTemplateMap v) ≤ goSize v := by
  cases v with
  | vobj f => simp [toTemplateMap, goSize]
  | varr items =>
      cases items with
      | nil => simp [toTemplateMap, goSize, goSizeFields, goSizeItems]
      | cons first rest =>
          have h2 := goSizeItems_pos rest
          cases first <;> simp [toTemplateMap, goSize, goSizeFields, goSizeItems]
          all_goals omega
  | _ => simp [toTemplateMap, goSize, goSizeFields]

theorem goSize_headOrNull_lt (bl : List GoVal) :
    goSize (headOrNull bl) < goSize (.varr bl) := by
  cases bl with
  | nil => simp [headOrNull, goSize, goSizeItems]
  | cons x rest =>
      have := goSizeItems_pos rest
      simp [headOrNull, goSize, goSizeItems]
      omega

theorem goSize_headOrNull_toTemplateSlice_le (v : GoVal) :
    goSize (headOrNull (toTemplateSlice v)) ≤ goSize v := by
  cases v with
  | varr items =>
      cases items with
      | nil => simp [toTemplateSlice, headOrNull, goSize, goSizeItems]
      | cons x rest =>
          have := goSizeItems_pos rest
          simp [toTemplateSlice, headOrNull, goSize, goSizeItems]
          omega
  | vobj f => simp [toTemplateSlice, headOrNull]
  | vnull => simp [toTemplateSlice, headOrNull]
  | _ => simp [toTemplateSlice, headOrNull, copy_eq_joint]

/-- Fuel independence of the skeleton merge: once the fuel covers the joint
size of the arguments, the result no longer depends on it.  Proved jointly
for `mergeAux` and its map loop `mergeObjAux`. -/
theorem mergeAux_stable :
    ∀ f : Nat,
      (∀ b i g, goSize b + goSize i ≤ f → goSize b + goSize i ≤ g →
        mergeAux f b i = mergeAux g b i) ∧
      (∀ orig acc inc g, goSizeFields orig + goSizeFields inc ≤ f →
        goSizeFields orig + goSizeFields inc ≤ g →
        mergeObjAux f orig acc inc = mergeObjAux g orig acc inc) := by
  intro f
  induction f with
  | zero =>
      constructor
      · intro b i g hf _
        have := goSize_pos b; have := goSize_pos i; omega
      · intro orig acc inc g hf _
        have := goSizeFields_pos orig; have := goSizeFields_pos inc; omega
  | succ f ih =>
      constructor
      · intro b i g hf hg
        cases g with
        | zero => have := goSize_pos b; have := goSize_pos i; omega
        | succ g =>
            cases b with
            | vnull => rfl
            | vobj bf =>
                by_cases hnull : i.isNull = true
                · simp [mergeAux, hnull]
                · simp only [mergeAux, hnull, Bool.false_eq_true, if_false]
                  have h1 : goSizeFields bf + goSizeFields (toTemplateMap i) ≤ f := by
                    have := goSizeFields_toTemplateMap_le i
                    simp [goSize] at hf; omega
                  have h2 : goSizeFields bf + goSizeFields (toTemplateMap i) ≤ g := by
                    have := goSizeFields_toTemplateMap_le i
                    simp [goSize] at hg; omega
                  rw [ih.2 bf bf (toTemplateMap i) g h1 h2]
            | varr bl =>
                by_cases hnull : i.isNull = true
                · simp [mergeAux, hnull]
                · simp only [mergeAux, hnull, Bool.false_eq_true, if_false]
                  have h1 : goSize (headOrNull bl) + goSize (headOrNull (toTemplateSlice i)) ≤ f := by
                    have ha := goSize_headOrNull_lt bl
                    have hb := goSize_headOrNull_toTemplateSlice_le i
                    omega
                  have h2 : goSize (headOrNull bl) + goSize (headOrNull (toTemplateSlice i)) ≤ g := by
                    have ha := goSize_headOrNull_lt bl
                    have hb := goSize_headOrNull_toTemplateSlice_le i
                    omega
                  rw [ih.1 (headOrNull bl) (headOrNull (toTemplateSlice i)) g h1 h2]
            | vstr s => rfl
            | vbool b => rfl
            | vint n => rfl
            | vfloat x => rfl
            | vobjid oid => rfl
      · intro orig acc inc g hf hg
        cases g with
        | zero => have := goSizeFields_pos orig; have := goSizeFields_pos inc; omega
        | succ g =>
            cases inc with
            | nil => rfl
            | cons p rest =>
                obtain ⟨k, v⟩ := p
                simp only [mergeObjAux]
                have h1 : goSize (lookupOrNull orig k) + goSize v ≤ f := by
                  have := goSize_lookupOrNull_le orig k
                  simp [goSizeFields] at hf
                  have := goSize_pos v; omega
                have h2 : goSize (lookupOrNull orig k) + goSize v ≤ g := by
                  have := goSize_lookupOrNull_le orig k
                  simp [goSizeFields] at hg
                  have := goSize_pos v; omega
                rw [ih.1 (lookupOrNull orig k) v g h1 h2]
                apply ih.2
                · simp [goSizeFields] at hf; have := goSize_pos v; omega
                · simp [goSizeFields] at hg; have := goSize_pos v; omega

/-- Any sufficient fuel computes `mergeTemplateValues`. -/
theorem mergeAux_eq_merge (f : Nat) (b i : GoVal) (h : goSize b + goSize i ≤ f) :
    mergeAux f b i = mergeTemplateValues b i :=
  (mergeAux_stable f).1 b i (goSize b + goSize i) h le_rfl

/-- Any sufficient fuel computes `mergeObjFields`. -/
theorem mergeObjAux_eq_merge (f : Nat) (orig acc inc : Doc)
    (h : goSizeFields orig + goSizeFields inc ≤ f) :
    mergeObjAux f orig acc inc = mergeObjFields orig acc inc :=
  (mergeAux_stable f).2 orig acc inc (goSizeFields orig + goSizeFields inc) h le_rfl

/-- `if base == nil { return copyTemplateValue(incoming) }` — and the deep
copy is the value itself. -/
theorem mergeTemplateValues_null_left (i : GoVal) :
    mergeTemplateValues .vnull i = i := by
  have h := (mergeAux_stable (goSize GoVal.vnull + goSize i)).1 GoVal.vnull i
    (goSize i + 1) le_rfl (by simp only [goSize]; omega)
  unfold mergeTemplateValues
  rw [h]
  simp [mergeAux, copy_eq_joint]

/-- `if incoming == nil { return base }`. -/
theorem mergeTemplateValues_null_right (b : GoVal) :
    mergeTemplateValues b .vnull = b := by
  have h := (mergeAux_stable (goSize b + goSize GoVal.vnull)).1 b GoVal.vnull
    (goSize b + 1) le_rfl (by simp only [goSize]; omega)
  unfold mergeTemplateValues
  rw [h]
  cases b <;> simp [mergeAux, GoVal.isNull, copy_eq_joint]

/-- The map case of the skeleton merge, fuel-free. -/
theorem mergeTemplateValues_vobj (bf : Doc) (i : GoVal) (h : i ≠ .vnull) :
    mergeTemplateValues (.vobj bf) i = .vobj (mergeObjFields bf bf (toTemplateMap i)) := by
  have hnull : i.isNull = false := by cases i <;> simp_all [GoVal.isNull]
  have h1 := (mergeAux_stable (goSize (GoVal.vobj bf) + goSize i)).1 (GoVal.vobj bf) i
    ((goSizeFields bf + goSize i) + 1) le_rfl (by simp only [goSize]; omega)
  unfold mergeTemplateValues
  rw [h1]
  simp only [mergeAux, hnull, Bool.false_eq_true, if_false]
  rw [mergeObjAux_eq_merge (goSizeFields bf + goSize i) bf bf (toTemplateMap i)
    (by have := goSizeFields_toTemplateMap_le i; omega)]

/-- The slice case of the skeleton merge, fuel-free. -/
theorem mergeTemplateValues_varr (bl : List GoVal) (i : GoVal) (h : i ≠ .vnull) :
    mergeTemplateValues (.varr bl) i =
      if bl.length = 0 ∧ (toTemplateSlice i).length = 0 then .varr []
      else
        let merged := mergeTemplateValues (headOrNull bl) (headOrNull (toTemplateSlice i))
        if merged.isNull then .varr [] else .varr [merged] := by
  have hnull : i.isNull = false := by cases i <;> simp_all [GoVal.isNull]
  have h1 := (mergeAux_stable (goSize (GoVal.varr bl) + goSize i)).1 (GoVal.varr bl) i
    ((goSizeItems bl + goSize i) + 1) le_rfl (by simp only [goSize]; omega)
  unfold mergeTemplateValues
  rw [h1]
  simp only [mergeAux, hnull, Bool.false_eq_true, if_false]
  rw [mergeAux_eq_merge (goSizeItems bl + goSize i) (headOrNull bl)
    (headOrNull (toTemplateSlice i))
    (by
      have ha := goSize_headOrNull_lt bl
      have hb := goSize_headOrNull_toTemplateSlice_le i
      simp only [goSize] at ha
      omega)]
  rfl

/-- A scalar (string) base always wins in the skeleton merge. -/
theorem mergeTemplateValues_vstr (s : String) (i : GoVal) :
    mergeTemplateValues (.vstr s) i = .vstr s := by
  have h := (mergeAux_stable (goSize (GoVal.vstr s) + goSize i)).1 (GoVal.vstr s) i
    (goSize i + 1) le_rfl (by simp only [goSize]; omega)
  unfold mergeTemplateValues
  rw [h]
  rfl

/-- A scalar (bool) base always wins in the skeleton merge. -/
theorem mergeTemplateValues_vbool (b : Bool) (i : GoVal) :
    mergeTemplateValues (.vbool b) i = .vbool b := by
  have h := (mergeAux_stable (goSize (GoVal.vbool b) + goSize i)).1 (GoVal.vbool b) i
    (goSize i + 1) le_rfl (by simp only [goSize]; omega)
  unfold mergeTemplateValues
  rw [h]
  rfl

/-- A scalar (int) base always wins in the skeleton merge. -/
theorem mergeTemplateValues_vint (n : Int) (i : GoVal) :
    mergeTemplateValues (.vint n) i = .vint n := by
  have h := (mergeAux_stable (goSize (GoVal.vint n) + goSize i)).1 (GoVal.vint n) i
    (goSize i + 1) le_rfl (by simp only [goSize]; omega)
  unfold mergeTemplateValues
  rw [h]
  rfl

/-- A scalar (float) base always wins in the skeleton merge. -/
theorem mergeTemplateValues_vfloat (x : Nat) (i : GoVal) :
    mergeTemplateValues (.vfloat x) i = .vfloat x := by
  have h := (mergeAux_stable (goSize (GoVal.vfloat x) + goSize i)).1 (GoVal.vfloat x) i
    (goSize i + 1) le_rfl (by simp only [goSize]; omega)
  unfold mergeTemplateValues
  rw [h]
  rfl

/-- A scalar (ObjectID) base always wins in the skeleton merge. -/
theorem mergeTemplateValues_vobjid (oid : ObjectID) (i : GoVal) :
    mergeTemplateValues (.vobjid oid) i = .vobjid oid := by
  have h := (mergeAux_stable (goSize (GoVal.vobjid oid) + goSize i)).1 (GoVal.vobjid oid) i
    (goSize i + 1) le_rfl (by simp only [goSize]; omega)
  unfold mergeTemplateValues
  rw [h]
  rfl

theorem mergeObjFields_nil (orig acc : Doc) : mergeObjFields orig acc [] = acc := by
  unfold mergeObjFields
  rw [show goSizeFields orig + goSizeFields ([] : Doc) = goSizeFields orig + 1 from by
    simp only [goSizeFields]]
  rfl

theorem mergeObjFields_cons (orig acc : Doc) (k : String) (v : GoVal) (rest : Doc) :
    mergeObjFields orig acc ((k, v) :: rest) =
      mergeObjFields orig
        (insertKey acc k (mergeTemplateValues (lookupOrNull orig k) v)) rest := by
  unfold mergeObjFields
  rw [show goSizeFields orig + goSizeFields ((k, v) :: rest)
      = (goSizeFields orig + goSize v + goSizeFields rest) + 1 from by
    simp only [goSizeFields]; omega]
  simp only [mergeObjAux]
  rw [mergeAux_eq_merge (goSizeFields orig + goSize v + goSizeFields rest)
    (lookupOrNull orig k) v (by have := goSize_lookupOrNull_le orig k; omega)]
  rw [mergeObjAux_eq_merge (goSizeFields orig + goSize v + goSizeFields rest) orig _ rest
    (by have := goSize_pos v; omega)]
  rfl

/-- Fuel independence of the payload merge. -/
theorem mergeJSONAux_stable :
    ∀ f : Nat, ∀ orig acc upd (g : Nat), goSizeFields upd ≤ f → goSizeFields upd ≤ g →
      mergeJSONAux f orig acc upd = mergeJSONAux g orig acc upd := by
  intro f
  induction f with
  | zero =>
      intro orig acc upd g hf _
      have := goSizeFields_pos upd; omega
  | succ f ih =>
      intro orig acc upd g hf hg
      cases g with
      | zero => have := goSizeFields_pos upd; omega
      | succ g =>
          cases upd with
          | nil => rfl
          | cons p rest =>
              obtain ⟨k, v⟩ := p
              have hv := goSize_pos v
              have hrest1 : goSizeFields rest ≤ f := by
                simp only [goSizeFields] at hf; omega
              have hrest2 : goSizeFields rest ≤ g := by
                simp only [goSizeFields] at hg; omega
              by_cases hk : k = "_id"
              · simp only [mergeJSONAux, if_pos hk]
                exact ih orig acc rest g hrest1 hrest2
              · cases v with
                | vobj vf =>
                    simp only [mergeJSONAux, if_neg hk]
                    have hvf1 : goSizeFields vf ≤ f := by
                      simp only [goSizeFields, goSize] at hf; omega
                    have hvf2 : goSizeFields vf ≤ g := by
                      simp only [goSizeFields, goSize] at hg; omega
                    rw [ih _ _ vf g hvf1 hvf2]
                    exact ih _ _ rest g hrest1 hrest2
                | vnull =>
                    simp only [mergeJSONAux, if_neg hk]
                    exact ih _ _ rest g hrest1 hrest2
                | vstr s =>
                    simp only [mergeJSONAux, if_neg hk]
                    exact ih _ _ rest g hrest1 hrest2
                | vbool b =>
                    simp only [mergeJSONAux, if_neg hk]
                    exact ih _ _ rest g hrest1 hrest2
                | vint n =>
                    simp only [mergeJSONAux, if_neg hk]
                    exact ih _ _ rest g hrest1 hrest2
                | vfloat x =>
                    simp only [mergeJSONAux, if_neg hk]
                    exact ih _ _ rest g hrest1 hrest2
                | vobjid oid =>
                    simp only [mergeJSONAux, if_neg hk]
                    exact ih _ _ rest g hrest1 hrest2
                | varr items =>
                    simp only [mergeJSONAux, if_neg hk]
                    exact ih _ _ rest g hrest1 hrest2

/-- Any sufficient fuel computes `mergeJSONFields`. -/
theorem mergeJSONAux_eq (f : Nat) (orig acc upd : Doc) (h : goSizeFields upd ≤ f) :
    mergeJSONAux f orig acc upd = mergeJSONFields orig acc upd :=
  mergeJSONAux_stable f orig acc upd (goSizeFields upd) h le_rfl

theorem mergeJSONFields_nil (orig acc : Doc) : mergeJSONFields orig acc [] = acc := rfl

/-- The `_id` key of the update payload is skipped. -/
theorem mergeJSONFields_cons_id (orig acc : Doc) (v : GoVal) (rest : Doc) :
    mergeJSONFields orig acc (("_id", v) :: rest) = mergeJSONFields orig acc rest := by
  unfold mergeJSONFields
  rw [show goSizeFields (("_id", v) :: rest) = (goSize v + goSizeFields rest) + 1 from by
    simp only [goSizeFields]; omega]
  simp only [mergeJSONAux, if_pos rfl]
  exact mergeJSONAux_eq _ _ _ _ (by have := goSize_pos v; omega)

/-- A nested object in the update payload is merged recursively against the
base's value at that key (viewed as a map, empty if not a map). -/
theorem mergeJSONFields_cons_obj (orig acc : Doc) (k : String) (vf rest : Doc)
    (hk : k ≠ "_id") :
    mergeJSONFields orig acc ((k, .vobj vf) :: rest) =
      mergeJSONFields orig
        (insertKey acc k (.vobj
          (mergeJSONFields (asMapOrEmpty (lookupOrNull orig k))
            (asMapOrEmpty (lookupOrNull orig k)) vf))) rest := by
  unfold mergeJSONFields
  rw [show goSizeFields ((k, .vobj vf) :: rest)
      = (goSizeFields vf + goSizeFields rest + 1) + 1 from by
    simp only [goSizeFields, goSize]; omega]
  rw [show mergeJSONAux ((goSizeFields vf + goSizeFields rest + 1) + 1) orig acc
        ((k, .vobj vf) :: rest)
      = if k = "_id" then
          mergeJSONAux (goSizeFields vf + goSizeFields rest + 1) orig acc rest
        else
          mergeJSONAux (goSizeFields vf + goSizeFields rest + 1) orig
            (insertKey acc k (.vobj
              (mergeJSONAux (goSizeFields vf + goSizeFields rest + 1)
                (asMapOrEmpty (lookupOrNull orig k))
                (asMapOrEmpty (lookupOrNull orig k)) vf))) rest
      from rfl]
  rw [if_neg hk]
  rw [mergeJSONAux_eq (goSizeFields vf + goSizeFields rest + 1) _ _ vf (by omega)]
  exact mergeJSONAux_eq (goSizeFields vf + goSizeFields rest + 1) _ _ rest (by omega)

/-- A non-object value in the update payload replaces the base value. -/
theorem mergeJSONFields_cons_other (orig acc : Doc) (k : String) (v : GoVal) (rest : Doc)
    (hk : k ≠ "_id") (hv : ∀ vf, v ≠ .vobj vf) :
    mergeJSONFields orig acc ((k, v) :: rest) =
      mergeJSONFields orig (insertKey acc k v) rest := by
  unfold mergeJSONFields
  rw [show goSizeFields ((k, v) :: rest) = (goSize v + goSizeFields rest) + 1 from by
    simp only [goSizeFields]; omega]
  cases v with
  | vobj vf => exact absurd rfl (hv vf)
  | vnull =>
      simp only [mergeJSONAux, if_neg hk]
      exact mergeJSONAux_eq _ _ _ rest (by simp only [goSize]; omega)
  | vstr s =>
      simp only [mergeJSONAux, if_neg hk]
      exact mergeJSONAux_eq _ _ _ rest (by simp only [goSize]; omega)
  | vbool b =>
      simp only [mergeJSONAux, if_neg hk]
      exact mergeJSONAux_eq _ _ _ rest (by simp only [goSize]; omega)
  | vint n =>
      simp only [mergeJSONAux, if_neg hk]
      exact mergeJSONAux_eq _ _ _ rest (by simp only [goSize]; omega)
  | vfloat x =>
      simp only [mergeJSONAux, if_neg hk]
      exact mergeJSONAux_eq _ _ _ rest (by simp only [goSize]; omega)
  | vobjid oid =>
      simp only [mergeJSONAux, if_neg hk]
      exact mergeJSONAux_eq _ _ _ rest (by simp only [goSize]; omega)
  | varr items =>
      simp only [mergeJSONAux, if_neg hk]
      exact mergeJSONAux_eq _ _ _ rest (by simp only [goSize]; omega)

/-! ## Map-access lemmas -/

theorem lookupOpt_insertKey_same (m : Doc) (k : String) (v : GoVal) :
    lookupOpt (insertKey m k v) k = some v := by
  induction m with
  | nil => simp [insertKey, lookupOpt]
  | cons p rest ih =>
      obtain ⟨k0, w⟩ := p
      by_cases hk : k0 = k
      · simp [insertKey, hk, lookupOpt]
      · simp [insertKey, hk, lookupOpt, ih]

theorem lookupOpt_insertKey_ne (m : Doc) (k key : String) (v : GoVal) (h : k ≠ key) :
    lookupOpt (insertKey m k v) key = lookupOpt m key := by
  induction m with
  | nil => simp [insertKey, lookupOpt, h]
  | cons p rest ih =>
      obtain ⟨k0, w⟩ := p
      by_cases hk : k0 = k
      · subst hk
        simp [insertKey, lookupOpt, h]
      · by_cases hkey : k0 = key
        · subst hkey
          simp [insertKey, hk, lookupOpt]
        · simp [insertKey, hk, lookupOpt, hkey, ih]

/-- A key is present exactly when a lookup finds it. -/
theorem mem_keysOf_iff (m : Doc) (key : String) :
    key ∈ keysOf m ↔ lookupOpt m key ≠ none := by
  induction m with
  | nil => simp [keysOf, lookupOpt]
  | cons p rest ih =>
      obtain ⟨k0, w⟩ := p
      rw [show keysOf ((k0, w) :: rest) = k0 :: keysOf rest from rfl, List.mem_cons]
      by_cases hk : k0 = key
      · subst hk; simp [lookupOpt]
      · simp only [lookupOpt, if_neg hk]
        rw [ih]
        have hk2 : ¬ key = k0 := fun h => hk h.symm
        tauto

theorem keysOf_insertKey (m : Doc) (k : String) (v : GoVal) (key : String) :
    key ∈ keysOf (insertKey m k v) ↔ key = k ∨ key ∈ keysOf m := by
  by_cases hk : key = k
  · subst hk; simp [mem_keysOf_iff, lookupOpt_insertKey_same]
  · rw [mem_keysOf_iff, lookupOpt_insertKey_ne m k key v (fun h => hk h.symm),
      ← mem_keysOf_iff]
    simp [hk]

/-- The payload-merge loop never touches the `_id` entry of the accumulator:
the `_id` key of the incoming update is skipped, and every other write is to a
different key. -/
theorem mergeJSONFields_lookupOpt_id (orig : Doc) (upd : Doc) :
    ∀ acc, lookupOpt (mergeJSONFields orig acc upd) "_id" = lookupOpt acc "_id" := by
  induction upd with
  | nil => intro acc; rw [mergeJSONFields_nil]
  | cons p rest ih =>
      intro acc
      obtain ⟨k, v⟩ := p
      by_cases hk : k = "_id"
      · subst hk
        rw [mergeJSONFields_cons_id]
        exact ih acc
      · cases v with
        | vobj vf =>
            rw [mergeJSONFields_cons_obj _ _ _ _ _ hk, ih,
              lookupOpt_insertKey_ne _ _ _ _ hk]
        | vnull =>
            rw [mergeJSONFields_cons_other _ _ _ _ _ hk (by intro vf h; cases h), ih,
              lookupOpt_insertKey_ne _ _ _ _ hk]
        | vstr s =>
            rw [mergeJSONFields_cons_other _ _ _ _ _ hk (by intro vf h; cases h), ih,
              lookupOpt_insertKey_ne _ _ _ _ hk]
        | vbool b =>
            rw [mergeJSONFields_cons_other _ _ _ _ _ hk (by intro vf h; cases h), ih,
              lookupOpt_insertKey_ne _ _ _ _ hk]
        | vint n =>
            rw [mergeJSONFields_cons_other _ _ _ _ _ hk (by intro vf h; cases h), ih,
              lookupOpt_insertKey_ne _ _ _ _ hk]
        | vfloat x =>
            rw [mergeJSONFields_cons_other _ _ _ _ _ hk (by intro vf h; cases h), ih,
              lookupOpt_insertKey_ne _ _ _ _ hk]
        | vobjid oid =>
            rw [mergeJSONFields_cons_other _ _ _ _ _ hk (by intro vf h; cases h), ih,
              lookupOpt_insertKey_ne _ _ _ _ hk]
        | varr items =>
            rw [mergeJSONFields_cons_other _ _ _ _ _ hk (by intro vf h; cases h), ih,
              lookupOpt_insertKey_ne _ _ _ _ hk]

/-- C5 — the payload merge (`mergeJSONDocuments`) preserves the document
identity from the target side: the `_id` entry of
`mergeJSONDocuments existing update` (both its presence and its value) is
exactly that of `existing`, whatever value (if any) the update payload
contains under that key. -/
theorem C5_payload_merge_preserves_identity (existing update : Doc) :
    lookupOrNull (mergeJSONDocuments existing update) "_id"
      = lookupOrNull existing "_id" ∧
    lookupOpt (mergeJSONDocuments existing update) "_id"
      = lookupOpt existing "_id" := by
  have h := mergeJSONFields_lookupOpt_id existing update existing
  exact ⟨by simp [lookupOrNull, mergeJSONDocuments, h], h⟩

/-! ## The sanitizer: C3 -/

/-- The sanitizer never produces the nil interface. -/
theorem buildTemplateValue_ne_null (v : GoVal) : buildTemplateValue v ≠ .vnull := by
  cases v with
  | varr items =>
      simp only [buildTemplateValue]
      by_cases h : (buildArrFold .vnull items).isNull
      · simp [h]
      · simp [h]
  | vobj fields => simp [buildTemplateValue]
  | vnull => simp [buildTemplateValue]
  | vstr s => simp [buildTemplateValue]
  | vbool b => simp [buildTemplateValue]
  | vint n => simp [buildTemplateValue]
  | vfloat x => simp [buildTemplateValue]
  | vobjid oid => simp [buildTemplateValue]

/-- The skeleton merge never produces the nil interface unless both sides are
nil. -/
theorem mergeTemplateValues_ne_null (b i : GoVal) (h : i ≠ .vnull) :
    mergeTemplateValues b i ≠ .vnull := by
  cases b with
  | vnull => rw [mergeTemplateValues_null_left]; exact h
  | vobj bf => rw [mergeTemplateValues_vobj bf i h]; simp
  | varr bl =>
      rw [mergeTemplateValues_varr bl i h]
      by_cases h1 : bl.length = 0 ∧ (toTemplateSlice i).length = 0
      · simp [h1]
      · simp only [if_neg h1]
        by_cases h2 : (mergeTemplateValues (headOrNull bl)
            (headOrNull (toTemplateSlice i))).isNull
        · simp [h2]
        · simp [h2]
  | vstr s => rw [mergeTemplateValues_vstr]; simp
  | vbool b0 => rw [mergeTemplateValues_vbool]; simp
  | vint n => rw [mergeTemplateValues_vint]; simp
  | vfloat x => rw [mergeTemplateValues_vfloat]; simp
  | vobjid oid => rw [mergeTemplateValues_vobjid]; simp

/-- The array fold of the sanitizer yields nil only when it starts from nil
and the array is empty. -/
theorem buildArrFold_ne_null :
    ∀ (items : List GoVal) (e : GoVal), (e ≠ .vnull ∨ items ≠ []) →
      buildArrFold e items ≠ .vnull := by
  intro items
  induction items with
  | nil =>
      intro e h
      simp only [buildArrFold]
      rcases h with h | h
      · exact h
      · exact absurd rfl h
  | cons item rest ih =>
      intro e _
      simp only [buildArrFold]
      exact ih _ (Or.inl (mergeTemplateValues_ne_null e _ (buildTemplateValue_ne_null item)))

/-- C3 — the sanitizer is total (a total function of the document tree, raising
no error) and obeys exactly the leaf and array rules of the spec: string and
null leaves become the empty string, booleans become `false`, integer and
floating numerics become the integer `0`, any other scalar (an ObjectID, say)
becomes the empty string, and an array becomes the empty array when the source
array was empty, else a one-element array holding the deep-merged
representative of all sanitized elements. -/
theorem C3_sanitizer_total_and_leaf_rules :
    (∀ s, buildTemplateValue (.vstr s) = .vstr "") ∧
    (buildTemplateValue .vnull = .vstr "") ∧
    (∀ b, buildTemplateValue (.vbool b) = .vbool false) ∧
    (∀ n : Int, buildTemplateValue (.vint n) = .vint 0) ∧
    (∀ x, buildTemplateValue (.vfloat x) = .vint 0) ∧
    (∀ oid, buildTemplateValue (.vobjid oid) = .vstr "") ∧
    (∀ items : List GoVal,
      buildTemplateValue (.varr items) =
        if items.length = 0 then .varr []
        else .varr [buildArrFold .vnull items]) := by
  refine ⟨fun _ => rfl, rfl, fun _ => rfl, fun _ => rfl, fun _ => rfl, fun _ => rfl, ?_⟩
  intro items
  cases items with
  | nil => rfl
  | cons item rest =>
      simp only [buildTemplateValue]
      have h := buildArrFold_ne_null (item :: rest) .vnull (Or.inr (by simp))
      have hn : (buildArrFold .vnull (item :: rest)).isNull = false := by
        cases heq : buildArrFold .vnull (item :: rest) <;> simp_all [GoVal.isNull]
      simp [hn]

/-! ## Idempotence of sanitization: C4 -/

theorem IsSkel.ne_null {v : GoVal} (h : IsSkel v) : v ≠ .vnull := by
  intro heq; subst heq; cases h

theorem lookupOpt_none_iff (m : Doc) (key : String) :
    lookupOpt m key = none ↔ key ∉ keysOf m := by
  rw [mem_keysOf_iff]; tauto

theorem lookupOpt_mem (m : Doc) (key : String) (v : GoVal)
    (h : lookupOpt m key = some v) : (key, v) ∈ m := by
  induction m with
  | nil => simp [lookupOpt] at h
  | cons p rest ih =>
      obtain ⟨k0, w⟩ := p
      by_cases hk : k0 = key
      · subst hk
        simp [lookupOpt] at h
        subst h; exact List.mem_cons_self _ _
      · simp only [lookupOpt, if_neg hk] at h
        exact List.mem_cons_of_mem _ (ih h)

theorem insertKey_of_not_mem (m : Doc) (k : String) (v : GoVal)
    (h : k ∉ keysOf m) : insertKey m k v = m ++ [(k, v)] := by
  induction m with
  | nil => rfl
  | cons p rest ih =>
      obtain ⟨k0, w⟩ := p
      have hk : k0 ≠ k := by
        intro heq; subst heq
        exact h (by simp [keysOf])
      have hrest : k ∉ keysOf rest := by
        intro hm; exact h (by simp [keysOf] at hm ⊢; tauto)
      simp [insertKey, hk, ih hrest]

theorem keysOf_append (m1 m2 : Doc) : keysOf (m1 ++ m2) = keysOf m1 ++ keysOf m2 := by
  simp [keysOf]

theorem mem_insertKey_elim (m : Doc) (k : String) (v : GoVal) (p : String × GoVal)
    (h : p ∈ insertKey m k v) : p = (k, v) ∨ p ∈ m := by
  induction m with
  | nil => simp [insertKey] at h; tauto
  | cons q rest ih =>
      obtain ⟨k0, w⟩ := q
      by_cases hk : k0 = k
      · simp only [insertKey, if_pos hk] at h
        rcases List.mem_cons.mp h with h | h
        · exact Or.inl h
        · exact Or.inr (List.mem_cons_of_mem _ h)
      · simp only [insertKey, if_neg hk] at h
        rcases List.mem_cons.mp h with h | h
        · exact Or.inr (by simp [h])
        · rcases ih h with h | h
          · exact Or.inl h
          · exact Or.inr (List.mem_cons_of_mem _ h)

/-- Inserting at a key already present leaves the key list unchanged. -/
theorem keysOf_insertKey_mem (m : Doc) (k : String) (v : GoVal)
    (hmem : k ∈ keysOf m) : keysOf (insertKey m k v) = keysOf m := by
  induction m with
  | nil => simp [keysOf] at hmem
  | cons p rest ih =>
      obtain ⟨k0, w⟩ := p
      by_cases hk : k0 = k
      · subst hk; simp [insertKey, keysOf]
      · have hmem2 : k ∈ keysOf rest := by
          rw [show keysOf ((k0, w) :: rest) = k0 :: keysOf rest from rfl] at hmem
          rcases List.mem_cons.mp hmem with h | h
          · exact absurd h.symm hk
          · exact h
        rw [show insertKey ((k0, w) :: rest) k v = (k0, w) :: insertKey rest k v from by
          simp [insertKey, hk]]
        rw [show keysOf ((k0, w) :: insertKey rest k v)
            = k0 :: keysOf (insertKey rest k v) from rfl]
        rw [ih hmem2]
        rfl

/-- `insertKey` keeps a duplicate-free key set duplicate-free and keeps all
values skeletons when it inserts a skeleton. -/
theorem insertKey_skel (m : Doc) (k : String) (v : GoVal)
    (hn : (keysOf m).Nodup) (hvals : ∀ p ∈ m, IsSkel p.2) (hv : IsSkel v) :
    (keysOf (insertKey m k v)).Nodup ∧ ∀ p ∈ insertKey m k v, IsSkel p.2 := by
  constructor
  · by_cases hmem : k ∈ keysOf m
    · rw [keysOf_insertKey_mem m k v hmem]; exact hn
    · rw [insertKey_of_not_mem m k v hmem, keysOf_append]
      rw [List.nodup_append]
      refine ⟨hn, by simp [keysOf], ?_⟩
      intro a ha hb
      simp [keysOf] at hb
      subst hb
      exact hmem ha
  · intro p hp
    rcases mem_insertKey_elim m k v p hp with h | h
    · subst h; exact hv
    · exact hvals p h

/-- The map view of a skeleton has skeleton values. -/
theorem toTemplateMap_skel {i : GoVal} (hi : IsSkel i) :
    ∀ p ∈ toTemplateMap i, IsSkel p.2 := by
  cases hi with
  | str => simp [toTemplateMap]
  | bool => simp [toTemplateMap]
  | int => simp [toTemplateMap]
  | obj fields hn hvals => exact hvals
  | arrNil => simp [toTemplateMap]
  | arrOne e he =>
      cases he with
      | obj fields hn hvals => exact hvals
      | str => simp [toTemplateMap]
      | bool => simp [toTemplateMap]
      | int => simp [toTemplateMap]
      | arrNil => simp [toTemplateMap]
      | arrOne e2 he2 => simp [toTemplateMap]

/-- The head of the slice view of a skeleton is a skeleton or nil. -/
theorem headOrNull_toTemplateSlice_skel {i : GoVal} (hi : IsSkel i) :
    IsSkel (headOrNull (toTemplateSlice i)) ∨ headOrNull (toTemplateSlice i) = .vnull := by
  cases hi with
  | str => exact Or.inl IsSkel.str
  | bool => exact Or.inl IsSkel.bool
  | int => exact Or.inl IsSkel.int
  | obj fields hn hvals => exact Or.inl (IsSkel.obj fields hn hvals)
  | arrNil => exact Or.inr rfl
  | arrOne e he => exact Or.inl he

theorem isNull_false_of_ne {v : GoVal} (h : v ≠ .vnull) : v.isNull = false := by
  cases v with
  | vnull => exact absurd rfl h
  | vstr s => rfl
  | vbool b => rfl
  | vint n => rfl
  | vfloat x => rfl
  | vobjid oid => rfl
  | vobj fields => rfl
  | varr items => rfl

/-- Jointly: the skeleton merge of two skeletons is a skeleton, and its map
loop sends skeleton-valued inputs to a duplicate-free skeleton-valued map. -/
theorem merge_skel_joint :
    ∀ n : Nat,
      (∀ b i, goSize b + goSize i ≤ n → IsSkel b → IsSkel i →
        IsSkel (mergeTemplateValues b i)) ∧
      (∀ orig acc inc, goSizeFields orig + goSizeFields inc ≤ n →
        (∀ p ∈ orig, IsSkel p.2) → (keysOf acc).Nodup → (∀ p ∈ acc, IsSkel p.2) →
        (∀ p ∈ inc, IsSkel p.2) →
        (keysOf (mergeObjFields orig acc inc)).Nodup ∧
          ∀ p ∈ mergeObjFields orig acc inc, IsSkel p.2) := by
  intro n
  induction n with
  | zero =>
      constructor
      · intro b i hsz _ _
        have := goSize_pos b; have := goSize_pos i; omega
      · intro orig acc inc hsz _ _ _ _
        have := goSizeFields_pos orig; have := goSizeFields_pos inc; omega
  | succ n ih =>
      constructor
      · intro b i hsz hb hi
        cases hb with
        | str => rw [mergeTemplateValues_vstr]; exact IsSkel.str
        | bool => rw [mergeTemplateValues_vbool]; exact IsSkel.bool
        | int => rw [mergeTemplateValues_vint]; exact IsSkel.int
        | obj fields hn hvals =>
            rw [mergeTemplateValues_vobj _ _ hi.ne_null]
            have hbound : goSizeFields fields + goSizeFields (toTemplateMap i) ≤ n := by
              have h1 := goSizeFields_toTemplateMap_le i
              simp only [goSize] at hsz
              omega
            have hres := ih.2 fields fields (toTemplateMap i) hbound hvals hn hvals
              (toTemplateMap_skel hi)
            exact IsSkel.obj _ hres.1 hres.2
        | arrNil =>
            rw [mergeTemplateValues_varr _ _ hi.ne_null]
            by_cases hc : (List.length ([] : List GoVal) = 0 ∧ (toTemplateSlice i).length = 0)
            · rw [if_pos hc]; exact IsSkel.arrNil
            · rw [if_neg hc]
              have hhead := headOrNull_toTemplateSlice_skel hi
              rcases hhead with hh | hh
              · have hmerged : mergeTemplateValues (headOrNull []) (headOrNull (toTemplateSlice i))
                    = headOrNull (toTemplateSlice i) := by
                  rw [show headOrNull ([] : List GoVal) = GoVal.vnull from rfl,
                    mergeTemplateValues_null_left]
                rw [hmerged]
                have : (headOrNull (toTemplateSlice i)).isNull = false :=
                  isNull_false_of_ne hh.ne_null
                simp only [this, Bool.false_eq_true, if_false]
                exact IsSkel.arrOne _ hh
              · have hmerged : mergeTemplateValues (headOrNull []) (headOrNull (toTemplateSlice i))
                    = GoVal.vnull := by
                  rw [show headOrNull ([] : List GoVal) = GoVal.vnull from rfl,
                    mergeTemplateValues_null_left, hh]
                rw [hmerged]
                simp only [GoVal.isNull, if_true]
                exact IsSkel.arrNil
        | arrOne e he =>
            rw [mergeTemplateValues_varr _ _ hi.ne_null]
            have hc : ¬ (List.length [e] = 0 ∧ (toTemplateSlice i).length = 0) := by simp
            rw [if_neg hc]
            have hhead := headOrNull_toTemplateSlice_skel hi
            rcases hhead with hh | hh
            · have hmerged : IsSkel (mergeTemplateValues (headOrNull [e])
                  (headOrNull (toTemplateSlice i))) := by
                rw [show headOrNull [e] = e from rfl]
                apply (ih).1 e (headOrNull (toTemplateSlice i)) ?_ he hh
                have h1 := goSize_headOrNull_toTemplateSlice_le i
                have h2 := goSize_pos e
                simp only [goSize, goSizeItems] at hsz
                omega
              have : (mergeTemplateValues (headOrNull [e])
                  (headOrNull (toTemplateSlice i))).isNull = false :=
                isNull_false_of_ne hmerged.ne_null
              simp only [this, Bool.false_eq_true, if_false]
              exact IsSkel.arrOne _ hmerged
            · have hmerged : mergeTemplateValues (headOrNull [e]) (headOrNull (toTemplateSlice i))
                  = e := by
                rw [show headOrNull [e] = e from rfl, hh, mergeTemplateValues_null_right]
              rw [hmerged]
              have : e.isNull = false := isNull_false_of_ne he.ne_null
              simp only [this, Bool.false_eq_true, if_false]
              exact IsSkel.arrOne _ he
      · intro orig acc inc hsz horig hnacc haccvals hincvals
        cases inc with
        | nil =>
            rw [mergeObjFields_nil]
            exact ⟨hnacc, haccvals⟩
        | cons p rest =>
            obtain ⟨k, v⟩ := p
            rw [mergeObjFields_cons]
            have hv : IsSkel v := hincvals (k, v) (List.mem_cons_self _ _)
            have hmerged : IsSkel (mergeTemplateValues (lookupOrNull orig k) v) := by
              unfold lookupOrNull
              cases heq : lookupOpt orig k with
              | none => rw [mergeTemplateValues_null_left]; exact hv
              | some w =>
                  have hw : IsSkel w := horig (k, w) (lookupOpt_mem orig k w heq)
                  apply (ih).1 w v ?_ hw hv
                  have h1 := goSize_lookupOrNull_le orig k
                  rw [show lookupOrNull orig k = w from by unfold lookupOrNull; rw [heq]] at h1
                  simp only [goSizeFields] at hsz
                  have := goSizeFields_pos rest
                  omega
            have hacc2 := insertKey_skel acc k _ hnacc haccvals hmerged
            apply ih.2 orig _ rest ?_ horig hacc2.1 hacc2.2
              (fun p hp => hincvals p (List.mem_cons_of_mem _ hp))
            simp only [goSizeFields] at hsz
            have := goSize_pos v
            omega

/-- The skeleton merge of two skeletons is a skeleton. -/
theorem mergeTemplateValues_isSkel {b i : GoVal} (hb : IsSkel b) (hi : IsSkel i) :
    IsSkel (mergeTemplateValues b i) :=
  (merge_skel_joint (goSize b + goSize i)).1 b i le_rfl hb hi

/-- Everything the sanitizer produces is a skeleton (jointly with its two
loops). -/
theorem build_isSkel : ∀ v, IsSkel (buildTemplateValue v) := by
  apply buildTemplateValue.induct
    (fun v => IsSkel (buildTemplateValue v))
    (fun e items => (IsSkel e ∨ e = .vnull) →
      (IsSkel (buildArrFold e items) ∨ buildArrFold e items = .vnull))
    (fun acc fields => (keysOf acc).Nodup → (∀ p ∈ acc, IsSkel p.2) →
      (keysOf (buildObjFields acc fields)).Nodup ∧
        ∀ p ∈ buildObjFields acc fields, IsSkel p.2)
  · intro fields ih
    have h := ih (by simp [keysOf]) (by simp)
    exact IsSkel.obj _ h.1 h.2
  · intro items element hnull _
    simp only [buildTemplateValue, hnull, if_true]
    exact IsSkel.arrNil
  · intro items element hnull ih
    rcases ih (Or.inr rfl) with h | h
    · have hbuild : buildTemplateValue (GoVal.varr items)
          = GoVal.varr [buildArrFold GoVal.vnull items] := by
        simp only [buildTemplateValue, isNull_false_of_ne h.ne_null,
          Bool.false_eq_true, if_false]
      rw [hbuild]
      exact IsSkel.arrOne _ h
    · exact absurd (show element.isNull = true from by
        rw [show element = buildArrFold GoVal.vnull items from rfl, h]; rfl) hnull
  · intro s; exact IsSkel.str
  · exact IsSkel.str
  · intro b; exact IsSkel.bool
  · intro n; exact IsSkel.int
  · intro bits; exact IsSkel.int
  · intro oid; exact IsSkel.str
  · intro result hn hv
    exact ⟨hn, hv⟩
  · intro result key raw rest hraw ih hn hv
    show (keysOf (buildObjFields (insertKey result key
        (mergeTemplateValues (lookupOrNull result key) (buildTemplateValue raw))) rest)).Nodup ∧ _
    have hmerged : IsSkel (mergeTemplateValues (lookupOrNull result key)
        (buildTemplateValue raw)) := by
      unfold lookupOrNull
      cases heq : lookupOpt result key with
      | none => rw [mergeTemplateValues_null_left]; exact hraw
      | some w =>
          exact mergeTemplateValues_isSkel (hv (key, w) (lookupOpt_mem _ _ _ heq)) hraw
    have h := insertKey_skel result key _ hn hv hmerged
    exact ih h.1 h.2
  · intro element he
    exact he.imp id (fun h => h)
  · intro element item rest hitem ih he
    apply ih
    left
    rcases he with h | h
    · exact mergeTemplateValues_isSkel h hitem
    · rw [h, mergeTemplateValues_null_left]; exact hitem

theorem keysOf_cons (k : String) (v : GoVal) (rest : Doc) :
    keysOf ((k, v) :: rest) = k :: keysOf rest := rfl

/-- Building an object whose entries are already built, with fresh keys,
appends them unchanged to the accumulator. -/
theorem buildObjFields_append :
    ∀ (fields acc : Doc),
      (∀ p ∈ fields, buildTemplateValue p.2 = p.2) →
      (∀ key ∈ keysOf fields, key ∉ keysOf acc) →
      (keysOf fields).Nodup →
      buildObjFields acc fields = acc ++ fields := by
  intro fields
  induction fields with
  | nil => intro acc _ _ _; simp [buildObjFields]
  | cons p rest ih =>
      obtain ⟨k, v⟩ := p
      intro acc hfix hdisj hn
      have hk_not : k ∉ keysOf acc := hdisj k (by simp [keysOf_cons])
      have hlook : lookupOrNull acc k = .vnull := by
        unfold lookupOrNull
        rw [(lookupOpt_none_iff acc k).mpr hk_not]
      have hbuild : buildTemplateValue v = v := hfix (k, v) (List.mem_cons_self _ _)
      have hstep : insertKey acc k (mergeTemplateValues (lookupOrNull acc k)
          (buildTemplateValue v)) = acc ++ [(k, v)] := by
        rw [hlook, mergeTemplateValues_null_left, hbuild,
          insertKey_of_not_mem acc k v hk_not]
      have hnrest : (keysOf rest).Nodup := (List.nodup_cons.mp (keysOf_cons k v rest ▸ hn)).2
      have hknotrest : k ∉ keysOf rest := (List.nodup_cons.mp (keysOf_cons k v rest ▸ hn)).1
      have hdisj2 : ∀ key ∈ keysOf rest, key ∉ keysOf (acc ++ [(k, v)]) := by
        intro key hkey
        rw [keysOf_append]
        simp only [List.mem_append]
        rintro (h | h)
        · exact hdisj key (by simp [keysOf_cons, hkey]) h
        · simp [keysOf] at h
          subst h
          exact hknotrest hkey
      show buildObjFields (insertKey acc k (mergeTemplateValues (lookupOrNull acc k)
          (buildTemplateValue v))) rest = acc ++ (k, v) :: rest
      rw [hstep, ih (acc ++ [(k, v)]) (fun p hp => hfix p (List.mem_cons_of_mem _ hp))
        hdisj2 hnrest]
      simp

/-- Sanitizing a skeleton returns it unchanged. -/
theorem build_fix_of_skel : ∀ v, IsSkel v → buildTemplateValue v = v := by
  intro v h
  induction h with
  | str => rfl
  | bool => rfl
  | int => rfl
  | arrNil => rfl
  | arrOne e he ih =>
      have hfold : buildArrFold .vnull [e] = e := by
        show mergeTemplateValues .vnull (buildTemplateValue e) = e
        rw [mergeTemplateValues_null_left, ih]
      simp only [buildTemplateValue, hfold, isNull_false_of_ne he.ne_null,
        Bool.false_eq_true, if_false]
  | obj fields hn hvals ih =>
      show GoVal.vobj (buildObjFields [] fields) = GoVal.vobj fields
      rw [buildObjFields_append fields [] ih (by simp [keysOf]) hn]
      simp

/-- C4 — sanitization is idempotent: sanitizing the skeleton produced from any
document tree yields that identical skeleton, both at the value level
(`buildTemplateValue`) and at the document level
(`sanitizeTemplateDocument`). -/
theorem C4_sanitize_idempotent :
    (∀ v, buildTemplateValue (buildTemplateValue v) = buildTemplateValue v) ∧
    (∀ doc : Doc, sanitizeTemplateDocument (sanitizeTemplateDocument doc)
        = sanitizeTemplateDocument doc) := by
  have hfix : ∀ v, buildTemplateValue (buildTemplateValue v) = buildTemplateValue v :=
    fun v => build_fix_of_skel _ (build_isSkel v)
  refine ⟨hfix, ?_⟩
  intro doc
  have h2 : buildTemplateValue (GoVal.vobj (buildObjFields [] doc))
      = GoVal.vobj (buildObjFields [] doc) := hfix (.vobj doc)
  unfold sanitizeTemplateDocument
  rw [show buildTemplateValue (GoVal.vobj doc) = GoVal.vobj (buildObjFields [] doc) from rfl]
  rw [h2]

/-! ## Skeleton key superset: C2 -/

/-- The map loop of the skeleton merge only ever adds keys: its result's key
set contains the accumulator's keys and the incoming keys. -/
theorem keysOf_mergeObjFields :
    ∀ (inc orig acc : Doc) (key : String),
      (key ∈ keysOf acc ∨ key ∈ keysOf inc) →
      key ∈ keysOf (mergeObjFields orig acc inc) := by
  intro inc
  induction inc with
  | nil =>
      intro orig acc key h
      rw [mergeObjFields_nil]
      rcases h with h | h
      · exact h
      · simp [keysOf] at h
  | cons p rest ih =>
      obtain ⟨k, v⟩ := p
      intro orig acc key h
      rw [mergeObjFields_cons]
      apply ih
      rcases h with h | h
      · exact Or.inl ((keysOf_insertKey _ _ _ _).mpr (Or.inr h))
      · rw [keysOf_cons, List.mem_cons] at h
        rcases h with h | h
        · exact Or.inl ((keysOf_insertKey _ _ _ _).mpr (Or.inl h))
        · exact Or.inr h

/-- The object loop of the sanitizer only ever adds keys. -/
theorem keysOf_buildObjFields :
    ∀ (fields acc : Doc) (key : String),
      (key ∈ keysOf acc ∨ key ∈ keysOf fields) →
      key ∈ keysOf (buildObjFields acc fields) := by
  intro fields
  induction fields with
  | nil =>
      intro acc key h
      rcases h with h | h
      · exact h
      · simp [keysOf] at h
  | cons p rest ih =>
      obtain ⟨k, v⟩ := p
      intro acc key h
      show key ∈ keysOf (buildObjFields (insertKey acc k
        (mergeTemplateValues (lookupOrNull acc k) (buildTemplateValue v))) rest)
      apply ih
      rcases h with h | h
      · exact Or.inl ((keysOf_insertKey _ _ _ _).mpr (Or.inr h))
      · rw [keysOf_cons, List.mem_cons] at h
        rcases h with h | h
        · exact Or.inl ((keysOf_insertKey _ _ _ _).mpr (Or.inl h))
        · exact Or.inr h

/-- C2 — **counterexample** to the claim as stated.  Folding the two documents
`A = {x: "s"}` and `B = {x: {y: true}}` into one representative element, the
skeleton merge resolves the collision at key `x` in favour of `A`'s scalar
skeleton (`""`): the representative is `{x: ""}`, a scalar — not an object —
at `x`, so at nesting depth 1 the merged tree's key set at `x` is empty while
`keys(B.x) = {y}`.  The "superset at every nesting level" property therefore
fails on this concrete input. -/
theorem C2_counterexample :
    buildTemplateValue
        (.varr [.vobj [("x", .vstr "s")], .vobj [("x", .vobj [("y", .vbool true)])]])
      = .varr [.vobj [("x", .vstr "")]] ∧
    lookupOrNull [("x", GoVal.vstr "")] "x" = .vstr "" ∧
    keysOf (toTemplateMap (lookupOrNull [("x", GoVal.vstr "")] "x")) = [] ∧
    keysOf (toTemplateMap (lookupOrNull [("x", GoVal.vobj [("y", GoVal.vbool true)])] "x"))
      = ["y"] :=
  ⟨rfl, rfl, rfl, rfl⟩

/-- C2 — **amended**.  The key-superset property holds at the top level of the
fold, and at every nesting level at which the existing (left) value is an
object: every such level is itself a `mergeTemplateValues` call on an object
base, and its result is an object whose key set contains both the base's keys
and the incoming value's keys (the incoming value seen as a map, which is its
key-carrying part).  When the existing value is a scalar skeleton the scalar
wins and the incoming object's keys at that level are dropped
(`C2_counterexample`). -/
theorem C2_amended_skeleton_key_superset :
    (∀ fa fb : Doc, ∃ m : Doc,
      buildTemplateValue (.varr [.vobj fa, .vobj fb]) = .varr [.vobj m] ∧
      (∀ key, key ∈ keysOf fa → key ∈ keysOf m) ∧
      (∀ key, key ∈ keysOf fb → key ∈ keysOf m)) ∧
    (∀ (bf : Doc) (i : GoVal), i ≠ .vnull → ∃ m : Doc,
      mergeTemplateValues (.vobj bf) i = .vobj m ∧
      (∀ key, key ∈ keysOf bf → key ∈ keysOf m) ∧
      (∀ key, key ∈ keysOf (toTemplateMap i) → key ∈ keysOf m)) := by
  constructor
  · intro fa fb
    have hfold : buildArrFold .vnull [GoVal.vobj fa, GoVal.vobj fb]
        = mergeTemplateValues (GoVal.vobj (buildObjFields [] fa))
            (GoVal.vobj (buildObjFields [] fb)) := by
      show buildArrFold (mergeTemplateValues
        (mergeTemplateValues GoVal.vnull (buildTemplateValue (GoVal.vobj fa)))
        (buildTemplateValue (GoVal.vobj fb))) [] = _
      rw [show buildTemplateValue (GoVal.vobj fa)
          = GoVal.vobj (buildObjFields [] fa) from rfl]
      rw [show buildTemplateValue (GoVal.vobj fb)
          = GoVal.vobj (buildObjFields [] fb) from rfl]
      rw [mergeTemplateValues_null_left]
      rfl
    have hmerge := mergeTemplateValues_vobj (buildObjFields [] fa)
      (GoVal.vobj (buildObjFields [] fb)) (fun h => GoVal.noConfusion h)
    refine ⟨mergeObjFields (buildObjFields [] fa) (buildObjFields [] fa)
      (buildObjFields [] fb), ?_, ?_, ?_⟩
    · simp only [buildTemplateValue]
      rw [show toTemplateMap (GoVal.vobj (buildObjFields [] fb))
          = buildObjFields [] fb from rfl] at hmerge
      rw [hfold, hmerge]
      have hne : GoVal.vobj (mergeObjFields (buildObjFields [] fa)
          (buildObjFields [] fa) (buildObjFields [] fb)) ≠ GoVal.vnull :=
        fun h => GoVal.noConfusion h
      simp only [isNull_false_of_ne hne, Bool.false_eq_true, if_false]
    · intro key hk
      apply keysOf_mergeObjFields
      exact Or.inl (keysOf_buildObjFields fa [] key (Or.inr hk))
    · intro key hk
      apply keysOf_mergeObjFields
      exact Or.inr (keysOf_buildObjFields fb [] key (Or.inr hk))
  · intro bf i hne
    exact ⟨mergeObjFields bf bf (toTemplateMap i), mergeTemplateValues_vobj bf i hne,
      fun key hk => keysOf_mergeObjFields _ _ _ _ (Or.inl hk),
      fun key hk => keysOf_mergeObjFields _ _ _ _ (Or.inr hk)⟩

/-- Witness for the amended C2 at a concrete input: merging the skeleton
objects `{a: ""}` and `{b: false}` yields an object whose keys include both
`a` and `b`. -/
theorem C2_amended_witness :
    "a" ∈ keysOf (toTemplateMap (mergeTemplateValues (.vobj [("a", GoVal.vstr "")])
        (.vobj [("b", GoVal.vbool false)]))) ∧
    "b" ∈ keysOf (toTemplateMap (mergeTemplateValues (.vobj [("a", GoVal.vstr "")])
        (.vobj [("b", GoVal.vbool false)]))) := by
  obtain ⟨m, hm, h1, h2⟩ := C2_amended_skeleton_key_superset.2 [("a", GoVal.vstr "")]
    (.vobj [("b", GoVal.vbool false)]) (fun h => GoVal.noConfusion h)
  rw [hm]
  exact ⟨h1 "a" (by decide), h2 "b" (by decide)⟩

/-! ## The guarded single-document replace: C9, C10 -/

/-- Writing back a value that is already there changes nothing. -/
theorem insertKey_self (m : Doc) (k : String) (v : GoVal)
    (h : lookupOpt m k = some v) : insertKey m k v = m := by
  induction m with
  | nil => simp [lookupOpt] at h
  | cons p rest ih =>
      obtain ⟨k0, w⟩ := p
      by_cases hk : k0 = k
      · subst hk
        simp [lookupOpt] at h
        simp [insertKey, h]
      · simp only [lookupOpt, if_neg hk] at h
        simp [insertKey, hk, ih h]

/-- An upsert that matches nothing inserts the document (at the end). -/
theorem replaceOneUpsert_append (coll : List Doc) (oid : ObjectID) (doc : Doc)
    (h : findById coll oid = none) :
    replaceOneUpsert coll (.vobjid oid) doc = coll ++ [doc] := by
  induction coll with
  | nil => rfl
  | cons d rest ih =>
      by_cases hid : idIs (.vobjid oid) d = true
      · simp [findById, hid] at h
      · simp only [findById, hid, Bool.false_eq_true, if_false] at h
        simp [replaceOneUpsert, hid, ih h]

/-- C9 — guard and validation of `UpdateStructureWebsite`, **amended**: the
operation fails, before any write and with the collection unchanged, when the
local-development flag does not lower-case to "true", or `id` is the empty
string, or the payload is nil, or `id` does not parse as an ObjectID; and it
returns a document exactly when the flag is set, `id` is non-empty, the
payload is non-nil and `id` parses.  (The claim's additional "payload empty"
failure does not hold: the code only rejects a nil payload, and an empty
non-nil payload succeeds — `C9_counterexample`.) -/
theorem C9_amended_guard_and_validation :
    ∀ (localDev : String) (coll : List Doc) (id : String) (payload : Option Doc),
      (¬ (goToLower localDev = "true") →
        UpdateStructureWebsite localDev coll id payload
          = (.error "structure_websites mutation is available only when LOCAL_DEVELOPMENT=true",
             coll)) ∧
      (goToLower localDev = "true" → id = "" →
        UpdateStructureWebsite localDev coll id payload = (.error "id is required", coll)) ∧
      (goToLower localDev = "true" → id ≠ "" → payload = none →
        UpdateStructureWebsite localDev coll id payload
          = (.error "payload cannot be nil", coll)) ∧
      (goToLower localDev = "true" → id ≠ "" → payload ≠ none →
        ObjectIDFromHex id = none →
        UpdateStructureWebsite localDev coll id payload
          = (.error "invalid id format", coll)) ∧
      ((∃ d, (UpdateStructureWebsite localDev coll id payload).1 = .ok d) ↔
        (goToLower localDev = "true" ∧ id ≠ "" ∧ payload ≠ none ∧
          ObjectIDFromHex id ≠ none)) := by
  intro localDev coll id payload
  by_cases h1 : goToLower localDev = "true"
  · by_cases h2 : id = ""
    · have hrw : UpdateStructureWebsite localDev coll id payload
          = (.error "id is required", coll) := by
        simp only [UpdateStructureWebsite, if_neg (not_not_intro h1), if_pos h2]
      refine ⟨fun h => absurd h1 h, fun _ _ => hrw, fun _ h => absurd h2 h,
        fun _ h => absurd h2 h, ?_⟩
      simp only [hrw]
      simp [h2]
    · cases payload with
      | none =>
          have hrw : UpdateStructureWebsite localDev coll id none
              = (.error "payload cannot be nil", coll) := by
            simp only [UpdateStructureWebsite, if_neg (not_not_intro h1), if_neg h2]
          refine ⟨fun h => absurd h1 h, fun _ h => absurd h h2, fun _ _ _ => hrw,
            fun _ _ h _ => absurd rfl h, ?_⟩
          simp [hrw]
      | some p =>
          cases hhex : ObjectIDFromHex id with
          | none =>
              have hrw : UpdateStructureWebsite localDev coll id (some p)
                  = (.error "invalid id format", coll) := by
                simp only [UpdateStructureWebsite, if_neg (not_not_intro h1), if_neg h2, hhex]
              refine ⟨fun h => absurd h1 h, fun _ h => absurd h h2,
                fun _ _ h => Option.noConfusion h, fun _ _ _ _ => hrw, ?_⟩
              simp [hrw, h1, h2, hhex]
          | some oid =>
              refine ⟨fun h => absurd h1 h, fun _ h => absurd h h2,
                fun _ _ h => Option.noConfusion h,
                fun _ _ _ h => Option.noConfusion h, ?_⟩
              constructor
              · intro _
                exact ⟨h1, h2, Option.noConfusion, fun h => Option.noConfusion h⟩
              · intro _
                have hok : (UpdateStructureWebsite localDev coll id (some p)).1
                    = Except.ok (insertKey (mergeJSONDocuments
                        (match findById coll oid with
                         | some d => d
                         | none => [("_id", GoVal.vobjid oid)]) p) "_id" (.vobjid oid)) := by
                  simp only [UpdateStructureWebsite, if_neg (not_not_intro h1), if_neg h2, hhex]
                exact ⟨_, hok⟩
  · have hrw : UpdateStructureWebsite localDev coll id payload
        = (.error "structure_websites mutation is available only when LOCAL_DEVELOPMENT=true",
           coll) := by
      simp only [UpdateStructureWebsite, if_pos h1]
    refine ⟨fun _ => hrw, fun h => absurd h h1, fun h => absurd h h1,
      fun h => absurd h h1, ?_⟩
    simp [hrw, h1]

/-- C9 — **counterexample** to the claim as stated: with the flag set, a valid
id, and an *empty but non-nil* payload, the operation does not fail — it
upserts and returns the document `{_id}` (the claim requires an empty payload
to be rejected). -/
theorem C9_counterexample :
    UpdateStructureWebsite "true" [] "652f781b0b0f5f6c1b3dd111" (some [])
      = (.ok [("_id", GoVal.vobjid [101, 47, 120, 27, 11, 15, 95, 108, 27, 61, 209, 17])],
         [[("_id", GoVal.vobjid [101, 47, 120, 27, 11, 15, 95, 108, 27, 61, 209, 17])]]) := rfl

/-- Witness for the amended C9 at a concrete input: with the flag unset the
call fails with the guard error and the collection is untouched. -/
theorem C9_amended_witness :
    UpdateStructureWebsite "false" [] "652f781b0b0f5f6c1b3dd111"
        (some [("a", GoVal.vint 1)])
      = (.error "structure_websites mutation is available only when LOCAL_DEVELOPMENT=true",
         []) :=
  (C9_amended_guard_and_validation "false" [] "652f781b0b0f5f6c1b3dd111"
    (some [("a", GoVal.vint 1)])).1 (by decide)

/-- C10 — when the flag is set and the (valid, non-empty) id matches no stored
document, `UpdateStructureWebsite` does not fail: it returns exactly the
payload merged into the singleton `{_id: parsed id}` and appends that document
to the collection (the final explicit `_id` write is a no-op because the merge
already preserved the identity). -/
theorem C10_upsert_missing_document :
    ∀ (localDev : String) (coll : List Doc) (id : String) (p : Doc) (oid : ObjectID),
      goToLower localDev = "true" → id ≠ "" → ObjectIDFromHex id = some oid →
      findById coll oid = none →
      UpdateStructureWebsite localDev coll id (some p)
        = (.ok (mergeJSONDocuments [("_id", GoVal.vobjid oid)] p),
           coll ++ [mergeJSONDocuments [("_id", GoVal.vobjid oid)] p]) := by
  intro localDev coll id p oid h1 h2 h3 h4
  have hid : lookupOpt (mergeJSONDocuments [("_id", GoVal.vobjid oid)] p) "_id"
      = some (.vobjid oid) := by
    rw [show mergeJSONDocuments [("_id", GoVal.vobjid oid)] p
        = mergeJSONFields [("_id", GoVal.vobjid oid)] [("_id", GoVal.vobjid oid)] p from rfl]
    rw [mergeJSONFields_lookupOpt_id]
    simp [lookupOpt]
  have hins := insertKey_self _ "_id" (GoVal.vobjid oid) hid
  simp only [UpdateStructureWebsite, if_neg (not_not_intro h1), if_neg h2, h3, h4]
  rw [hins, replaceOneUpsert_append coll oid _ h4]

/-- Witness for C10 at a concrete input: updating an absent id in an empty
collection creates `{_id, slug}`. -/
theorem C10_witness :
    UpdateStructureWebsite "true" [] "652f781b0b0f5f6c1b3dd111"
        (some [("slug", GoVal.vstr "home")])
      = (.ok [("_id", GoVal.vobjid [101, 47, 120, 27, 11, 15, 95, 108, 27, 61, 209, 17]),
              ("slug", GoVal.vstr "home")],
         [[("_id", GoVal.vobjid [101, 47, 120, 27, 11, 15, 95, 108, 27, 61, 209, 17]),
           ("slug", GoVal.vstr "home")]]) := by
  rw [C10_upsert_missing_document "true" [] "652f781b0b0f5f6c1b3dd111"
    [("slug", GoVal.vstr "home")] [101, 47, 120, 27, 11, 15, 95, 108, 27, 61, 209, 17]
    rfl (by decide) rfl rfl]
  rfl

/-! ## Identity resolution: C8 -/

/-- If some (non-nil) document in the list fails `prepareTemplateDocument`
(for any generator state — its failure depends only on the document), the
sanitizing loop fails. -/
theorem prepareAll_error_of_doc_error :
    ∀ (docs : List (Option Doc)) (gen : Nat → ObjectID) (idx ctr : Nat),
      (∃ doc, some doc ∈ docs ∧
        ∀ (g : Nat → ObjectID) (c : Nat), ∃ e, prepareTemplateDocument g c doc = .error e) →
      ∃ e, prepareAll gen idx ctr docs = .error e := by
  intro docs
  induction docs with
  | nil =>
      intro gen idx ctr ⟨doc, hmem, _⟩
      simp at hmem
  | cons hd rest ih =>
      intro gen idx ctr ⟨doc, hmem, hfail⟩
      cases hd with
      | none =>
          apply ih gen (idx + 1) ctr
          refine ⟨doc, ?_, hfail⟩
          rcases List.mem_cons.mp hmem with h | h
          · exact absurd h (by simp)
          · exact h
      | some d =>
          cases hprep : prepareTemplateDocument gen ctr d with
          | error e =>
              exact ⟨"document " ++ toString idx ++ ": " ++ e, by
                simp only [prepareAll, hprep]⟩
          | ok res =>
              obtain ⟨sanitized, docID, ctr1⟩ := res
              have hdoc_rest : some doc ∈ rest := by
                rcases List.mem_cons.mp hmem with h | h
                · obtain ⟨e, he⟩ := hfail gen ctr
                  have : d = doc := by injection h.symm
                  rw [this, he] at hprep
                  exact Except.noConfusion hprep
                · exact h
              obtain ⟨e, he⟩ := ih gen (idx + 1) ctr1 ⟨doc, hdoc_rest, hfail⟩
              exact ⟨e, by simp only [prepareAll, hprep, he]⟩

/-- If the sanitizing loop fails, the whole `ApplyStructureTemplate` call is
rejected. -/
theorem apply_error_of_prepareAll_error :
    ∀ (gen : Nat → ObjectID) (st : CoreState) (templateKey : String)
      (documents : List (Option Doc)) (targetField : String),
      (∃ e, prepareAll gen 0 0 documents = .error e) →
      ∃ e2, ApplyStructureTemplate gen st templateKey documents targetField = .error e2 := by
  intro gen st templateKey documents targetField ⟨e, he⟩
  by_cases hk : templateKey = ""
  · exact ⟨"templateKey is required", by simp only [ApplyStructureTemplate, if_pos hk]⟩
  · by_cases hd : documents.length = 0
    · exact ⟨"documents payload cannot be empty", by
        simp only [ApplyStructureTemplate, if_neg hk, if_pos hd]⟩
    · exact ⟨e, by simp only [ApplyStructureTemplate, if_neg hk, if_neg hd, he]⟩

/-- C8 — identity resolution of a template document follows exactly the
stated rules: an absent `_id`, or a string `_id` that trims to empty, takes a
freshly generated identity (advancing the generator); a string that trims
non-empty must parse as 24-hex-digit ObjectID format, and on parse failure the
document — and with it the whole `ApplyStructureTemplate` call — is rejected
with a format error; a native ObjectID value is used unchanged.  In every
success case the resolved identity is written into the sanitized document
under `_id`. -/
theorem C8_identity_resolution :
    ∀ (gen : Nat → ObjectID) (ctr : Nat) (doc : Doc),
      (lookupOpt doc "_id" = none →
        prepareTemplateDocument gen ctr doc
          = .ok (insertKey (sanitizeTemplateDocument doc) "_id" (.vobjid (gen ctr)),
              gen ctr, ctr + 1)) ∧
      (∀ s, lookupOpt doc "_id" = some (.vstr s) → goTrimSpace s = "" →
        prepareTemplateDocument gen ctr doc
          = .ok (insertKey (sanitizeTemplateDocument doc) "_id" (.vobjid (gen ctr)),
              gen ctr, ctr + 1)) ∧
      (∀ s oid, lookupOpt doc "_id" = some (.vstr s) → goTrimSpace s ≠ "" →
        ObjectIDFromHex (goTrimSpace s) = some oid →
        prepareTemplateDocument gen ctr doc
          = .ok (insertKey (sanitizeTemplateDocument doc) "_id" (.vobjid oid), oid, ctr)) ∧
      (∀ s, lookupOpt doc "_id" = some (.vstr s) → goTrimSpace s ≠ "" →
        ObjectIDFromHex (goTrimSpace s) = none →
        prepareTemplateDocument gen ctr doc
          = .error ("invalid _id value " ++ goTrimSpace s)) ∧
      (∀ oid, lookupOpt doc "_id" = some (.vobjid oid) →
        prepareTemplateDocument gen ctr doc
          = .ok (insertKey (sanitizeTemplateDocument doc) "_id" (.vobjid oid), oid, ctr)) ∧
      ((∀ g c, ∃ e, prepareTemplateDocument g c doc = .error e) →
        ∀ (st : CoreState) (templateKey : String) (before after : List (Option Doc))
          (targetField : String),
          ∃ e2, ApplyStructureTemplate gen st templateKey (before ++ some doc :: after)
            targetField = .error e2) := by
  intro gen ctr doc
  refine ⟨?_, ?_, ?_, ?_, ?_, ?_⟩
  · intro h
    simp only [prepareTemplateDocument, h]
  · intro s h hs
    simp only [prepareTemplateDocument, h, hs, if_true, if_pos]
  · intro s oid h hs hhex
    simp only [prepareTemplateDocument, h, if_neg hs, hhex]
  · intro s h hs hhex
    simp only [prepareTemplateDocument, h, if_neg hs, hhex]
  · intro oid h
    simp only [prepareTemplateDocument, h]
  · intro hfail st templateKey before after targetField
    apply apply_error_of_prepareAll_error
    apply prepareAll_error_of_doc_error
    exact ⟨doc, by simp, hfail⟩

/-! ## The fan-out: shared inversion and the client-name list -/

/-- Success inversion for `ApplyStructureTemplate`: a successful call is
exactly a successful sanitize pass followed by a successful client loop over
the registrations matching the effective field, with the summary's client
names sorted at the end and the two collections updated. -/
theorem apply_ok_inv :
    ∀ (gen : Nat → ObjectID) (st : CoreState) (key : String) (docs : List (Option Doc))
      (tf : String) (summary : TemplateApplySummary) (st' : CoreState),
      ApplyStructureTemplate gen st key docs tf = .ok (summary, st') →
      ∃ sanitized ids ctrF tcolls2 summary0,
        key ≠ "" ∧ docs.length ≠ 0 ∧
        prepareAll gen 0 0 docs = .ok (sanitized, ids, ctrF) ∧
        sanitized.length ≠ 0 ∧
        processClients sanitized ids
          (st.dbClients.filter (clientMatches (effectiveFieldFor st key tf) key))
          st.tenantCollections
          { TemplateKey := key, TargetField := effectiveFieldFor st key tf,
            ClientNames := [], UpdatedDocuments := 0, DeletedDocuments := 0 }
          = .ok (tcolls2, summary0) ∧
        summary = { summary0 with ClientNames := sortStrings summary0.ClientNames } ∧
        st' = { st with
          structureTemplates := collSet st.structureTemplates key (sanitized.map cloneMap),
          tenantCollections := tcolls2 } := by
  intro gen st key docs tf summary st' h
  by_cases hk : key = ""
  · simp only [ApplyStructureTemplate, if_pos hk] at h
    exact Except.noConfusion h
  · by_cases hd : docs.length = 0
    · simp only [ApplyStructureTemplate, if_neg hk, if_pos hd] at h
      exact Except.noConfusion h
    · cases hp : prepareAll gen 0 0 docs with
      | error e =>
          simp only [ApplyStructureTemplate, if_neg hk, if_neg hd, hp] at h
          exact Except.noConfusion h
      | ok triple =>
          obtain ⟨sanitized, ids, ctrF⟩ := triple
          by_cases hs : sanitized.length = 0
          · simp only [ApplyStructureTemplate, if_neg hk, if_neg hd, hp, if_pos hs] at h
            exact Except.noConfusion h
          · simp only [ApplyStructureTemplate, if_neg hk, if_neg hd, hp, if_neg hs] at h
            cases hproc : processClients sanitized ids
                (st.dbClients.filter (clientMatches (effectiveFieldFor st key tf) key))
                st.tenantCollections
                { TemplateKey := key, TargetField := effectiveFieldFor st key tf,
                  ClientNames := [], UpdatedDocuments := 0, DeletedDocuments := 0 } with
            | error e =>
                rw [show (if (if tf = "" then "structure_template" else tf) = "structure_template" ∧
                      countMatching st.dbClients (if tf = "" then "structure_template" else tf) key = 0
                    then "template" else (if tf = "" then "structure_template" else tf))
                    = effectiveFieldFor st key tf from rfl] at h
                rw [hproc] at h
                exact Except.noConfusion h
            | ok pair =>
                obtain ⟨tcolls2, summary0⟩ := pair
                rw [show (if (if tf = "" then "structure_template" else tf) = "structure_template" ∧
                      countMatching st.dbClients (if tf = "" then "structure_template" else tf) key = 0
                    then "template" else (if tf = "" then "structure_template" else tf))
                    = effectiveFieldFor st key tf from rfl] at h
                rw [hproc] at h
                have h2 : (Except.ok
                    ({ summary0 with ClientNames := sortStrings summary0.ClientNames },
                     { st with
                        structureTemplates :=
                          collSet st.structureTemplates key (sanitized.map cloneMap),
                        tenantCollections := tcolls2 })
                    : Except String (TemplateApplySummary × CoreState))
                    = Except.ok (summary, st') := h
                injection h2 with hpair
                injection hpair with hA hB
                exact ⟨sanitized, ids, ctrF, tcolls2, summary0, hk, hd, rfl, hs, hproc,
                  hA.symm, hB.symm⟩

/-- A client whose decoded name trims to blank contributes no name. -/
theorem clientNamesOf_cons_skip (c : Doc) (rest : List Doc) (raw : String)
    (hdec : decodeClientName c = .ok raw) (htrim : goTrimSpace raw = "") :
    clientNamesOf (c :: rest) = clientNamesOf rest := by
  unfold decodeClientName at hdec
  cases hlook : lookupOpt c "client_name" with
  | none => simp only [clientNamesOf, List.filterMap_cons, hlook]
  | some v =>
      rw [hlook] at hdec
      cases v with
      | vstr s =>
          have hdec2 : (Except.ok s : Except String String) = Except.ok raw := hdec
          have hraw : s = raw := Except.ok.inj hdec2
          subst hraw
          simp only [clientNamesOf, List.filterMap_cons, hlook, htrim, if_pos rfl, if_true]
      | vnull => exact Except.noConfusion hdec
      | vbool b => exact Except.noConfusion hdec
      | vint n => exact Except.noConfusion hdec
      | vfloat x => exact Except.noConfusion hdec
      | vobjid oid => exact Except.noConfusion hdec
      | vobj f => exact Except.noConfusion hdec
      | varr l => exact Except.noConfusion hdec

/-- A client whose decoded name trims non-blank contributes that trimmed
name. -/
theorem clientNamesOf_cons_keep (c : Doc) (rest : List Doc) (raw : String)
    (hdec : decodeClientName c = .ok raw) (htrim : goTrimSpace raw ≠ "") :
    clientNamesOf (c :: rest) = goTrimSpace raw :: clientNamesOf rest := by
  unfold decodeClientName at hdec
  cases hlook : lookupOpt c "client_name" with
  | none =>
      have hdec2 : (Except.ok "" : Except String String) = Except.ok raw := by
        rw [hlook] at hdec; exact hdec
      have hraw : "" = raw := Except.ok.inj hdec2
      exact absurd (hraw ▸ rfl) htrim
  | some v =>
      rw [hlook] at hdec
      cases v with
      | vstr s =>
          have hdec2 : (Except.ok s : Except String String) = Except.ok raw := hdec
          have hraw : s = raw := Except.ok.inj hdec2
          subst hraw
          simp only [clientNamesOf, List.filterMap_cons, hlook, if_neg htrim]
      | vnull => exact Except.noConfusion hdec
      | vbool b => exact Except.noConfusion hdec
      | vint n => exact Except.noConfusion hdec
      | vfloat x => exact Except.noConfusion hdec
      | vobjid oid => exact Except.noConfusion hdec
      | vobj f => exact Except.noConfusion hdec
      | varr l => exact Except.noConfusion hdec

/-- On success, the client loop appends exactly the decoded, trimmed,
non-blank client names, in registry order, and leaves the key and field of
the summary unchanged. -/
theorem processClients_ok_names :
    ∀ (clients : List Doc) (docs : List Doc) (ids : List ObjectID)
      (tcolls tcolls2 : List (String × List Doc))
      (summary summary2 : TemplateApplySummary),
      processClients docs ids clients tcolls summary = .ok (tcolls2, summary2) →
      summary2.ClientNames = summary.ClientNames ++ clientNamesOf clients ∧
      summary2.TargetField = summary.TargetField ∧
      summary2.TemplateKey = summary.TemplateKey := by
  intro clients
  induction clients with
  | nil =>
      intro docs ids tcolls tcolls2 summary summary2 h
      have h2 : (Except.ok (tcolls, summary)
          : Except String (List (String × List Doc) × TemplateApplySummary))
          = Except.ok (tcolls2, summary2) := h
      injection h2 with hpair
      injection hpair with hA hB
      subst hB
      simp [clientNamesOf]
  | cons c rest ih =>
      intro docs ids tcolls tcolls2 summary summary2 h
      simp only [processClients] at h
      cases hdec : decodeClientName c with
      | error e =>
          simp only [hdec] at h
          exact Except.noConfusion h
      | ok raw =>
          simp only [hdec] at h
          by_cases htrim : goTrimSpace raw = ""
          · rw [if_pos htrim] at h
            rw [clientNamesOf_cons_skip c rest raw hdec htrim]
            exact ih docs ids tcolls tcolls2 summary summary2 h
          · rw [if_neg htrim] at h
            have hres := ih docs ids _ tcolls2 _ summary2 h
            rw [clientNamesOf_cons_keep c rest raw hdec htrim]
            refine ⟨?_, hres.2.1, hres.2.2⟩
            rw [hres.1]
            simp

theorem charListLe_iff (as bs : List Char) :
    charListLe as bs = true ↔ ¬ List.Lex (· < ·) bs as := by
  induction as generalizing bs with
  | nil =>
      simp only [charListLe, true_iff]
      intro h
      cases h
  | cons a as ih =>
      cases bs with
      | nil =>
          simp only [charListLe, Bool.false_eq_true, false_iff, not_not]
          exact List.Lex.nil
      | cons b bs =>
          by_cases hab : a < b
          · have hne : ¬ List.Lex (· < ·) (b :: bs) (a :: as) := by
              intro h
              cases h with
              | cons h => exact lt_irrefl _ hab
              | rel h => exact asymm hab h
            simp only [charListLe, if_pos hab, true_iff]
            exact hne
          · by_cases hba : b < a
            · simp only [charListLe, if_neg hab, if_pos hba, Bool.false_eq_true,
                false_iff, not_not]
              exact List.Lex.rel hba
            · have heq : a = b := le_antisymm (le_of_not_lt hba) (le_of_not_lt hab)
              subst heq
              have hiff : List.Lex (· < ·) (a :: bs) (a :: as) ↔
                  List.Lex (· < ·) bs as := by
                constructor
                · intro h
                  cases h with
                  | cons h => exact h
                  | rel h => exact absurd h (lt_irrefl a)
                · exact List.Lex.cons
              simp only [charListLe, if_neg hab, if_neg hba]
              rw [ih bs, hiff]

theorem goStrLe_iff (a b : String) : goStrLe a b = true ↔ a ≤ b := by
  unfold goStrLe
  rw [charListLe_iff]
  constructor
  · intro h hlt
    exact h (String.lt_iff_toList_lt.mp hlt)
  · intro h hlex
    exact h (String.lt_iff_toList_lt.mpr hlex)

theorem insertSorted_perm (x : String) (l : List String) :
    List.Perm (insertSorted x l) (x :: l) := by
  induction l with
  | nil => exact List.Perm.refl _
  | cons y rest ih =>
      by_cases hxy : goStrLe x y = true
      · simp only [insertSorted, if_pos hxy]
        exact List.Perm.refl _
      · simp only [insertSorted, if_neg hxy]
        exact List.Perm.trans (List.Perm.cons y ih) (List.Perm.swap x y rest)

theorem sortStrings_perm (l : List String) : List.Perm (sortStrings l) l := by
  induction l with
  | nil => exact List.Perm.refl _
  | cons x rest ih =>
      simp only [sortStrings]
      exact List.Perm.trans (insertSorted_perm x (sortStrings rest)) (List.Perm.cons x ih)

theorem insertSorted_sorted (x : String) (l : List String)
    (h : l.Pairwise (· ≤ ·)) : (insertSorted x l).Pairwise (· ≤ ·) := by
  induction l with
  | nil => simp [insertSorted]
  | cons y rest ih =>
      rcases List.pairwise_cons.mp h with ⟨hy, hrest⟩
      by_cases hxy : goStrLe x y = true
      · have hle : x ≤ y := (goStrLe_iff x y).mp hxy
        simp only [insertSorted, if_pos hxy]
        refine List.pairwise_cons.mpr ⟨?_, h⟩
        intro z hz
        rcases List.mem_cons.mp hz with hz | hz
        · exact hz ▸ hle
        · exact le_trans hle (hy z hz)
      · have hle : y ≤ x := le_of_not_le (fun hc => hxy ((goStrLe_iff x y).mpr hc))
        simp only [insertSorted, if_neg hxy]
        refine List.pairwise_cons.mpr ⟨?_, ih hrest⟩
        intro z hz
        have hz2 := (insertSorted_perm x rest).mem_iff.mp hz
        rcases List.mem_cons.mp hz2 with hz2 | hz2
        · exact hz2 ▸ hle
        · exact hy z hz2

theorem sortStrings_sorted (l : List String) : (sortStrings l).Pairwise (· ≤ ·) := by
  induction l with
  | nil => simp [sortStrings]
  | cons x rest ih => exact insertSorted_sorted x (sortStrings rest) ih

/-- C6 — fallback field activation.  With the default target field and zero
clients registered on `structure_template` for the template name, a
successful `ApplyStructureTemplate` reports the legacy field `"template"` as
effective and returns exactly the tenants matched on the legacy field.  With
an explicitly overridden target field no fallback is attempted — the summary
reports the caller's field and the tenants matched on it — and zero matched
tenants is a valid non-error outcome (given the inputs that pass validation,
the call succeeds with an empty tenant list). -/
theorem C6_fallback_field_activation :
    ∀ (gen : Nat → ObjectID) (st : CoreState) (templateKey : String)
      (documents : List (Option Doc)),
      (∀ (summary : TemplateApplySummary) (st' : CoreState),
        ApplyStructureTemplate gen st templateKey documents "" = .ok (summary, st') →
        countMatching st.dbClients "structure_template" templateKey = 0 →
        summary.TargetField = "template" ∧
        summary.ClientNames = sortStrings (clientNamesOf
          (st.dbClients.filter (clientMatches "template" templateKey)))) ∧
      (∀ targetField : String, targetField ≠ "" → targetField ≠ "structure_template" →
        (∀ (summary : TemplateApplySummary) (st' : CoreState),
          ApplyStructureTemplate gen st templateKey documents targetField
            = .ok (summary, st') →
          summary.TargetField = targetField ∧
          summary.ClientNames = sortStrings (clientNamesOf
            (st.dbClients.filter (clientMatches targetField templateKey)))) ∧
        (templateKey ≠ "" →
          ∀ sanitized ids ctrF,
            prepareAll gen 0 0 documents = .ok (sanitized, ids, ctrF) →
            sanitized.length ≠ 0 →
            countMatching st.dbClients targetField templateKey = 0 →
            ∃ (summary2 : TemplateApplySummary) (st2 : CoreState),
              ApplyStructureTemplate gen st templateKey documents targetField
                = .ok (summary2, st2) ∧
              summary2.ClientNames = [] ∧ summary2.TargetField = targetField)) := by
  intro gen st templateKey documents
  constructor
  · intro summary st' h hcount
    obtain ⟨sanitized, ids, ctrF, tcolls2, summary0, hk, hd, hp, hs, hproc, hsum, hst⟩ :=
      apply_ok_inv gen st templateKey documents "" summary st' h
    have heff : effectiveFieldFor st templateKey "" = "template" := by
      unfold effectiveFieldFor targetFieldFor
      simp [hcount]
    rw [heff] at hproc
    have hnames := processClients_ok_names _ _ _ _ _ _ _ hproc
    subst hsum
    refine ⟨hnames.2.1, ?_⟩
    show sortStrings summary0.ClientNames = _
    rw [hnames.1]
    rfl
  · intro targetField htf1 htf2
    have heff : effectiveFieldFor st templateKey targetField = targetField := by
      unfold effectiveFieldFor targetFieldFor
      rw [if_neg htf1]
      simp [htf2]
    constructor
    · intro summary st' h
      obtain ⟨sanitized, ids, ctrF, tcolls2, summary0, hk, hd, hp, hs, hproc, hsum, hst⟩ :=
        apply_ok_inv gen st templateKey documents targetField summary st' h
      rw [heff] at hproc
      have hnames := processClients_ok_names _ _ _ _ _ _ _ hproc
      subst hsum
      refine ⟨hnames.2.1, ?_⟩
      show sortStrings summary0.ClientNames = _
      rw [hnames.1]
      rfl
    · intro hkey sanitized ids ctrF hprep hslen hcount
      have hd : documents.length ≠ 0 := by
        intro h0
        rw [List.length_eq_zero] at h0
        subst h0
        have h1 : (Except.ok (([] : List Doc), ([] : List ObjectID), 0)
            : Except String (List Doc × List ObjectID × Nat))
            = Except.ok (sanitized, ids, ctrF) := hprep
        injection h1 with hpair
        injection hpair with hA hrest
        exact hslen (by rw [← hA]; rfl)
      have hmatched : st.dbClients.filter (clientMatches targetField templateKey) = [] := by
        unfold countMatching at hcount
        exact List.length_eq_zero.mp hcount
      have happly : ApplyStructureTemplate gen st templateKey documents targetField
          = .ok ({ TemplateKey := templateKey, TargetField := targetField,
                   ClientNames := [], UpdatedDocuments := 0, DeletedDocuments := 0 },
                 { st with structureTemplates :=
                     collSet st.structureTemplates templateKey (sanitized.map cloneMap) }) := by
        simp only [ApplyStructureTemplate, if_neg hkey, if_neg hd, hprep, if_neg hslen]
        rw [show (if (if targetField = "" then "structure_template" else targetField)
              = "structure_template" ∧
              countMatching st.dbClients
                (if targetField = "" then "structure_template" else targetField)
                templateKey = 0
            then "template" else (if targetField = "" then "structure_template" else targetField))
            = effectiveFieldFor st templateKey targetField from rfl]
        rw [heff, hmatched]
        rfl
      exact ⟨_, _, happly, rfl, rfl⟩

/-- Witness for C6 at a concrete input: one client registered only on the
legacy `template` field; applying with the default target field falls back,
reports `"template"`, and reaches exactly that client. -/
theorem C6_witness :
    (ApplyStructureTemplate (fun _ => List.replicate 12 0)
        { dbClients := [[("client_name", GoVal.vstr "acme"), ("template", GoVal.vstr "t1")]],
          structureTemplates := [], tenantCollections := [] }
        "t1" [some [("slug", GoVal.vstr "home")]] ""
      = .ok ({ TemplateKey := "t1", TargetField := "template", ClientNames := ["acme"],
               UpdatedDocuments := 1, DeletedDocuments := 0 },
             { dbClients := [[("client_name", GoVal.vstr "acme"),
                 ("template", GoVal.vstr "t1")]],
               structureTemplates := [("t1",
                 [[("slug", GoVal.vstr ""), ("_id", GoVal.vobjid (List.replicate 12 0))]])],
               tenantCollections := [("acme",
                 [[("slug", GoVal.vstr ""), ("_id", GoVal.vobjid (List.replicate 12 0))]])] })) ∧
    (({ TemplateKey := "t1", TargetField := "template", ClientNames := ["acme"],
        UpdatedDocuments := 1, DeletedDocuments := 0 } : TemplateApplySummary).TargetField
        = "template" ∧
     ({ TemplateKey := "t1", TargetField := "template", ClientNames := ["acme"],
        UpdatedDocuments := 1, DeletedDocuments := 0 } : TemplateApplySummary).ClientNames
        = sortStrings (clientNamesOf
            (List.filter (clientMatches "template" "t1")
              [[("client_name", GoVal.vstr "acme"), ("template", GoVal.vstr "t1")]]))) :=
  ⟨rfl, (C6_fallback_field_activation (fun _ => List.replicate 12 0)
      { dbClients := [[("client_name", GoVal.vstr "acme"), ("template", GoVal.vstr "t1")]],
        structureTemplates := [], tenantCollections := [] }
      "t1" [some [("slug", GoVal.vstr "home")]]).1 _ _ rfl rfl⟩

/-- A collected client name is non-blank and is the trimmed form of a decoded
registry name. -/
theorem mem_clientNamesOf (clients : List Doc) (n : String)
    (h : n ∈ clientNamesOf clients) :
    n ≠ "" ∧ ∃ raw, n = goTrimSpace raw := by
  unfold clientNamesOf at h
  rcases List.mem_filterMap.mp h with ⟨c, hc, hf⟩
  cases hlook : lookupOpt c "client_name" with
  | none =>
      rw [hlook] at hf
      exact Option.noConfusion hf
  | some v =>
      rw [hlook] at hf
      cases v with
      | vstr s =>
          have hf2 : (if goTrimSpace s = "" then none else some (goTrimSpace s))
              = some n := hf
          by_cases htrim : goTrimSpace s = ""
          · rw [if_pos htrim] at hf2
            exact Option.noConfusion hf2
          · rw [if_neg htrim] at hf2
            have hn : goTrimSpace s = n := Option.some.inj hf2
            exact ⟨hn ▸ htrim, s, hn.symm⟩
      | vnull => exact Option.noConfusion hf
      | vbool b => exact Option.noConfusion hf
      | vint n0 => exact Option.noConfusion hf
      | vfloat x => exact Option.noConfusion hf
      | vobjid oid => exact Option.noConfusion hf
      | vobj f => exact Option.noConfusion hf
      | varr l => exact Option.noConfusion hf

/-- C7 — **amended**.  The affected-tenant list a successful fan-out returns
is exactly the sorted list of decoded, trimmed, non-blank names of the
matched registrations: it is lexicographically sorted, every name is
non-empty and is the trimmed form of a registry name.  It is NOT
deduplicated: a name registered twice appears twice (`C7_counterexample`). -/
theorem C7_amended_affected_tenants :
    ∀ (gen : Nat → ObjectID) (st : CoreState) (templateKey targetField : String)
      (documents : List (Option Doc)) (summary : TemplateApplySummary) (st' : CoreState),
      ApplyStructureTemplate gen st templateKey documents targetField = .ok (summary, st') →
      summary.ClientNames = sortStrings (clientNamesOf (st.dbClients.filter
        (clientMatches (effectiveFieldFor st templateKey targetField) templateKey))) ∧
      summary.ClientNames.Pairwise (· ≤ ·) ∧
      (∀ n ∈ summary.ClientNames, n ≠ "" ∧ ∃ raw, n = goTrimSpace raw) := by
  intro gen st templateKey targetField documents summary st' h
  obtain ⟨sanitized, ids, ctrF, tcolls2, summary0, hk, hd, hp, hs, hproc, hsum, hst⟩ :=
    apply_ok_inv gen st templateKey documents targetField summary st' h
  have hnames := processClients_ok_names _ _ _ _ _ _ _ hproc
  subst hsum
  have hcn : summary0.ClientNames = clientNamesOf (st.dbClients.filter
      (clientMatches (effectiveFieldFor st templateKey targetField) templateKey)) := by
    rw [hnames.1]
    rfl
  refine ⟨by rw [hcn], ?_, ?_⟩
  · exact sortStrings_sorted _
  · intro n hn
    have hn2 : n ∈ summary0.ClientNames :=
      (sortStrings_perm summary0.ClientNames).mem_iff.mp hn
    rw [hcn] at hn2
    exact mem_clientNamesOf _ n hn2

set_option maxHeartbeats 2000000 in
set_option maxRecDepth 4000 in
/-- C7 — **counterexample** to the deduplication part of the claim: two
registrations carrying the same client name `"acme"` both match, and the
returned affected-tenant list is `["acme", "acme"]` — not deduplicated. -/
theorem C7_counterexample :
    (ApplyStructureTemplate (fun _ => List.replicate 12 0)
        { dbClients :=
            [[("client_name", GoVal.vstr "acme"), ("structure_template", GoVal.vstr "t1")],
             [("client_name", GoVal.vstr "acme"), ("structure_template", GoVal.vstr "t1")]],
          structureTemplates := [], tenantCollections := [] }
        "t1" [some [("slug", GoVal.vstr "home")]] ""
      = .ok ({ TemplateKey := "t1", TargetField := "structure_template",
               ClientNames := ["acme", "acme"],
               UpdatedDocuments := 2, DeletedDocuments := 0 },
             { dbClients :=
                 [[("client_name", GoVal.vstr "acme"), ("structure_template", GoVal.vstr "t1")],
                  [("client_name", GoVal.vstr "acme"), ("structure_template", GoVal.vstr "t1")]],
               structureTemplates := [("t1",
                 [[("slug", GoVal.vstr ""), ("_id", GoVal.vobjid (List.replicate 12 0))]])],
               tenantCollections := [("acme",
                 [[("slug", GoVal.vstr ""), ("_id", GoVal.vobjid (List.replicate 12 0))]])] })) ∧
    ¬ (["acme", "acme"] : List String).Nodup :=
  ⟨by rfl, by simp⟩

set_option maxHeartbeats 2000000 in
set_option maxRecDepth 4000 in
/-- Witness for the amended C7 at a concrete input: two clients, one with a
padded name, come back trimmed and sorted. -/
theorem C7_amended_witness :
    (ApplyStructureTemplate (fun _ => List.replicate 12 0)
        { dbClients :=
            [[("client_name", GoVal.vstr " zeta "), ("structure_template", GoVal.vstr "t1")],
             [("client_name", GoVal.vstr "alpha"), ("structure_template", GoVal.vstr "t1")]],
          structureTemplates := [], tenantCollections := [] }
        "t1" [some [("slug", GoVal.vstr "home")]] ""
      = .ok ({ TemplateKey := "t1", TargetField := "structure_template",
               ClientNames := ["alpha", "zeta"],
               UpdatedDocuments := 2, DeletedDocuments := 0 },
             { dbClients :=
                 [[("client_name", GoVal.vstr " zeta "), ("structure_template", GoVal.vstr "t1")],
                  [("client_name", GoVal.vstr "alpha"), ("structure_template", GoVal.vstr "t1")]],
               structureTemplates := [("t1",
                 [[("slug", GoVal.vstr ""), ("_id", GoVal.vobjid (List.replicate 12 0))]])],
               tenantCollections :=
                 [("zeta", [[("slug", GoVal.vstr ""), ("_id", GoVal.vobjid (List.replicate 12 0))]]),
                  ("alpha", [[("slug", GoVal.vstr ""), ("_id", GoVal.vobjid (List.replicate 12 0))]])] })) ∧
    (({ TemplateKey := "t1", TargetField := "structure_template",
        ClientNames := ["alpha", "zeta"],
        UpdatedDocuments := 2, DeletedDocuments := 0 } : TemplateApplySummary).ClientNames.Pairwise
      (· ≤ ·)) :=
  ⟨by rfl, ((C7_amended_affected_tenants (fun _ => List.replicate 12 0)
      { dbClients :=
          [[("client_name", GoVal.vstr " zeta "), ("structure_template", GoVal.vstr "t1")],
           [("client_name", GoVal.vstr "alpha"), ("structure_template", GoVal.vstr "t1")]],
        structureTemplates := [], tenantCollections := [] }
      "t1" "" [some [("slug", GoVal.vstr "home")]]
      { TemplateKey := "t1", TargetField := "structure_template",
        ClientNames := ["alpha", "zeta"],
        UpdatedDocuments := 2, DeletedDocuments := 0 }
      { dbClients :=
          [[("client_name", GoVal.vstr " zeta "), ("structure_template", GoVal.vstr "t1")],
           [("client_name", GoVal.vstr "alpha"), ("structure_template", GoVal.vstr "t1")]],
        structureTemplates := [("t1",
          [[("slug", GoVal.vstr ""), ("_id", GoVal.vobjid (List.replicate 12 0))]])],
        tenantCollections :=
          [("zeta", [[("slug", GoVal.vstr ""), ("_id", GoVal.vobjid (List.replicate 12 0))]]),
           ("alpha", [[("slug", GoVal.vstr ""), ("_id", GoVal.vobjid (List.replicate 12 0))]])] }
      (by rfl)).2.1)⟩

/-- Witness for C8 at a concrete input: an `_id` supplied as a padded hex
string trims, parses, and is used as the document identity without consuming
a fresh ID. -/
theorem C8_witness :
    prepareTemplateDocument (fun _ => List.replicate 12 0) 0
        [("_id", GoVal.vstr " 652f781b0b0f5f6c1b3dd111 ")]
      = .ok (insertKey
          (sanitizeTemplateDocument [("_id", GoVal.vstr " 652f781b0b0f5f6c1b3dd111 ")])
          "_id" (.vobjid [101, 47, 120, 27, 11, 15, 95, 108, 27, 61, 209, 17]),
          [101, 47, 120, 27, 11, 15, 95, 108, 27, 61, 209, 17], 0) :=
  (C8_identity_resolution (fun _ => List.replicate 12 0) 0
    [("_id", GoVal.vstr " 652f781b0b0f5f6c1b3dd111 ")]).2.2.1
    " 652f781b0b0f5f6c1b3dd111 "
    [101, 47, 120, 27, 11, 15, 95, 108, 27, 61, 209, 17]
    rfl (by decide) rfl

/-! ## Per-tenant convergence of the fan-out -/

theorem getId_insertKey (d : Doc) (v : GoVal) : getId (insertKey d "_id" v) = v := by
  unfold getId lookupOrNull
  rw [lookupOpt_insertKey_same]

theorem prepare_getId (gen : Nat → ObjectID) (ctr : Nat) (doc : Doc)
    (s : Doc) (oid : ObjectID) (c' : Nat)
    (h : prepareTemplateDocument gen ctr doc = .ok (s, oid, c')) :
    getId s = GoVal.vobjid oid := by
  simp only [prepareTemplateDocument] at h
  split at h
  · split at h
    · injection h with hp
      injection hp with hA hB
      injection hB with hC hD
      subst hA
      subst hC
      exact getId_insertKey _ _
    · split at h
      · exact Except.noConfusion h
      · injection h with hp
        injection hp with hA hB
        injection hB with hC hD
        subst hA
        subst hC
        exact getId_insertKey _ _
  · injection h with hp
    injection hp with hA hB
    injection hB with hC hD
    subst hA
    subst hC
    exact getId_insertKey _ _
  · exact Except.noConfusion h
  · injection h with hp
    injection hp with hA hB
    injection hB with hC hD
    subst hA
    subst hC
    exact getId_insertKey _ _

theorem prepareAll_forall2 (gen : Nat → ObjectID) :
    ∀ (documents : List (Option Doc)) (idx ctr : Nat) (docs : List Doc)
      (ids : List ObjectID) (ctr' : Nat),
      prepareAll gen idx ctr documents = .ok (docs, ids, ctr') →
      List.Forall₂ (fun d oid => getId d = GoVal.vobjid oid) docs ids := by
  intro documents
  induction documents with
  | nil =>
      intro idx ctr docs ids ctr' h
      have h2 : (Except.ok (([] : List Doc), ([] : List ObjectID), ctr)
          : Except String (List Doc × List ObjectID × Nat)) = .ok (docs, ids, ctr') := h
      injection h2 with hp
      injection hp with hA hB
      injection hB with hC hD
      subst hA
      subst hC
      exact List.Forall₂.nil
  | cons od rest ih =>
      intro idx ctr docs ids ctr' h
      cases od with
      | none => exact ih (idx + 1) ctr docs ids ctr' h
      | some doc =>
          simp only [prepareAll] at h
          cases hp : prepareTemplateDocument gen ctr doc with
          | error e =>
              simp only [hp] at h
              exact Except.noConfusion h
          | ok trip =>
              obtain ⟨san, docID, ctr1⟩ := trip
              simp only [hp] at h
              cases hr : prepareAll gen (idx + 1) ctr1 rest with
              | error e =>
                  simp only [hr] at h
                  exact Except.noConfusion h
              | ok trip2 =>
                  obtain ⟨docs2, ids2, ctr2⟩ := trip2
                  simp only [hr] at h
                  injection h with hpair
                  injection hpair with hA hB
                  injection hB with hC hD
                  subst hA
                  subst hC
                  exact List.Forall₂.cons (prepare_getId gen ctr doc san docID ctr1 hp)
                    (ih (idx + 1) ctr1 docs2 ids2 ctr2 hr)

theorem forall2_mem_left (docs : List Doc) (ids : List ObjectID)
    (h : List.Forall₂ (fun d oid => getId d = GoVal.vobjid oid) docs ids) :
    ∀ d ∈ docs, ∃ o ∈ ids, getId d = GoVal.vobjid o := by
  induction h with
  | nil => intro d hd; cases hd
  | @cons d1 o1 l1 l2 h1 h2 ih =>
      intro d hd
      rcases List.mem_cons.mp hd with hd | hd
      · exact ⟨o1, List.mem_cons_self _ _, hd ▸ h1⟩
      · rcases ih d hd with ⟨o, ho, hR⟩
        exact ⟨o, List.mem_cons_of_mem _ ho, hR⟩

theorem idIs_vobjid_iff (d : Doc) (b : ObjectID) :
    idIs (GoVal.vobjid b) d = true ↔ getId d = GoVal.vobjid b := by
  unfold idIs
  cases hg : getId d <;> simp [hg]

theorem mem_replaceOneUpsert_self (coll : List Doc) (idv : GoVal) (doc : Doc) :
    doc ∈ replaceOneUpsert coll idv doc := by
  induction coll with
  | nil => exact List.mem_singleton.mpr rfl
  | cons d rest ih =>
      by_cases hm : idIs idv d = true
      · simp only [replaceOneUpsert, if_pos hm]
        exact List.mem_cons_self _ _
      · simp only [replaceOneUpsert, if_neg hm]
        exact List.mem_cons_of_mem _ ih

theorem mem_replaceOneUpsert_of_ne (coll : List Doc) (idv : GoVal) (doc d : Doc)
    (hd : d ∈ coll) (hne : idIs idv d = false) :
    d ∈ replaceOneUpsert coll idv doc := by
  induction coll with
  | nil => cases hd
  | cons d0 rest ih =>
      by_cases hm : idIs idv d0 = true
      · simp only [replaceOneUpsert, if_pos hm]
        rcases List.mem_cons.mp hd with hd | hd
        · subst hd
          rw [hne] at hm
          exact Bool.noConfusion hm
        · exact List.mem_cons_of_mem _ hd
      · simp only [replaceOneUpsert, if_neg hm]
        rcases List.mem_cons.mp hd with hd | hd
        · exact hd ▸ List.mem_cons_self _ _
        · exact List.mem_cons_of_mem _ (ih hd)

theorem hasId_replaceOneUpsert_self (coll : List Doc) (doc : Doc) (o : ObjectID)
    (hdoc : getId doc = GoVal.vobjid o) :
    hasId (replaceOneUpsert coll (GoVal.vobjid o) doc) o = true := by
  unfold hasId
  exact List.any_eq_true.mpr ⟨doc, mem_replaceOneUpsert_self coll _ doc,
    (idIs_vobjid_iff doc o).mpr hdoc⟩

theorem hasId_replaceOneUpsert_mono (coll : List Doc) (doc : Doc) (o o' : ObjectID)
    (hdoc : getId doc = GoVal.vobjid o) (h : hasId coll o' = true) :
    hasId (replaceOneUpsert coll (GoVal.vobjid o) doc) o' = true := by
  unfold hasId at h ⊢
  rcases List.any_eq_true.mp h with ⟨d, hd, hid⟩
  by_cases hrep : idIs (GoVal.vobjid o) d = true
  · have hgd : getId d = GoVal.vobjid o := (idIs_vobjid_iff d o).mp hrep
    have hgd' : getId d = GoVal.vobjid o' := (idIs_vobjid_iff d o').mp hid
    rw [hgd] at hgd'
    injection hgd' with ho
    exact List.any_eq_true.mpr ⟨doc, mem_replaceOneUpsert_self coll _ doc,
      (idIs_vobjid_iff doc o').mpr (ho ▸ hdoc)⟩
  · have hf : idIs (GoVal.vobjid o) d = false := Bool.eq_false_iff.mpr hrep
    exact List.any_eq_true.mpr ⟨d, mem_replaceOneUpsert_of_ne coll _ doc d hd hf, hid⟩

theorem upsertAll_cons (d : Doc) (rest : List Doc) (coll : List Doc) :
    upsertAll (d :: rest) coll = upsertAll rest (replaceOneUpsert coll (getId d) d) := by
  simp only [upsertAll, cloneMap_eq]

theorem hasId_upsertAll_mono (docs : List Doc) (ids : List ObjectID)
    (hid : List.Forall₂ (fun d oid => getId d = GoVal.vobjid oid) docs ids) :
    ∀ (coll : List Doc) (o' : ObjectID), hasId coll o' = true →
      hasId (upsertAll docs coll) o' = true := by
  induction hid with
  | nil => intro coll o' h; exact h
  | @cons d oid docs2 ids2 hd htail ih =>
      intro coll o' h
      rw [upsertAll_cons, hd]
      exact ih _ o' (hasId_replaceOneUpsert_mono coll d oid o' hd h)

theorem hasId_upsertAll_of_mem (docs : List Doc) (ids : List ObjectID)
    (hid : List.Forall₂ (fun d oid => getId d = GoVal.vobjid oid) docs ids) :
    ∀ (coll : List Doc) (o : ObjectID), o ∈ ids → hasId (upsertAll docs coll) o = true := by
  induction hid with
  | nil => intro coll o h; cases h
  | @cons d oid docs2 ids2 hd htail ih =>
      intro coll o h
      rw [upsertAll_cons, hd]
      rcases List.mem_cons.mp h with h | h
      · subst h
        exact hasId_upsertAll_mono docs2 ids2 htail _ o
          (hasId_replaceOneUpsert_self coll d o hd)
      · exact ih _ o h

theorem deleteNotIn_cons (ids : List ObjectID) (d0 : Doc) (rest : List Doc) :
    deleteNotIn ids (d0 :: rest)
      = if idAmong ids d0 = true
        then (d0 :: (deleteNotIn ids rest).1, (deleteNotIn ids rest).2)
        else ((deleteNotIn ids rest).1, (deleteNotIn ids rest).2 + 1) := by
  simp only [deleteNotIn]

theorem mem_deleteNotIn (ids : List ObjectID) (coll : List Doc) :
    ∀ d ∈ (deleteNotIn ids coll).1, idAmong ids d = true := by
  induction coll with
  | nil => intro d hd; cases hd
  | cons d0 rest ih =>
      intro d hd
      rw [deleteNotIn_cons] at hd
      by_cases hA : idAmong ids d0 = true
      · rw [if_pos hA] at hd
        rcases List.mem_cons.mp hd with hd | hd
        · exact hd ▸ hA
        · exact ih d hd
      · rw [if_neg hA] at hd
        exact ih d hd

theorem mem_deleteNotIn_of (ids : List ObjectID) (coll : List Doc) (d : Doc)
    (hd : d ∈ coll) (ha : idAmong ids d = true) :
    d ∈ (deleteNotIn ids coll).1 := by
  induction coll with
  | nil => cases hd
  | cons d0 rest ih =>
      rw [deleteNotIn_cons]
      rcases List.mem_cons.mp hd with hd0 | hd0
      · subst hd0
        rw [if_pos ha]
        exact List.mem_cons_self _ _
      · by_cases hA : idAmong ids d0 = true
        · rw [if_pos hA]
          exact List.mem_cons_of_mem _ (ih hd0)
        · rw [if_neg hA]
          exact ih hd0

theorem hasId_deleteNotIn (ids : List ObjectID) (coll : List Doc) (o : ObjectID)
    (ho : o ∈ ids) (h : hasId coll o = true) :
    hasId (deleteNotIn ids coll).1 o = true := by
  unfold hasId at h ⊢
  rcases List.any_eq_true.mp h with ⟨d, hd, hid⟩
  refine List.any_eq_true.mpr ⟨d, mem_deleteNotIn_of ids coll d hd ?_, hid⟩
  unfold idAmong
  exact List.any_eq_true.mpr ⟨o, ho, hid⟩

theorem mem_upsertAll_preserve (docs : List Doc) (ids : List ObjectID)
    (hid : List.Forall₂ (fun d oid => getId d = GoVal.vobjid oid) docs ids) :
    ∀ (coll : List Doc) (d : Doc) (o : ObjectID), d ∈ coll →
      getId d = GoVal.vobjid o → o ∉ ids → d ∈ upsertAll docs coll := by
  induction hid with
  | nil => intro coll d o hd _ _; exact hd
  | @cons d1 o1 docs2 ids2 hd1 htail ih =>
      intro coll d o hd hgd ho
      rw [upsertAll_cons, hd1]
      have hne : idIs (GoVal.vobjid o1) d = false := by
        cases hb : idIs (GoVal.vobjid o1) d
        · rfl
        · have hgd1 : getId d = GoVal.vobjid o1 := (idIs_vobjid_iff d o1).mp hb
          rw [hgd] at hgd1
          injection hgd1 with h2
          subst h2
          exact absurd (List.mem_cons_self _ _) ho
      exact ih _ d o (mem_replaceOneUpsert_of_ne coll (GoVal.vobjid o1) d1 d hd hne)
        hgd (fun hmem => ho (List.mem_cons_of_mem _ hmem))

theorem mem_upsertAll_self (docs : List Doc) (ids : List ObjectID)
    (hid : List.Forall₂ (fun d oid => getId d = GoVal.vobjid oid) docs ids) :
    ids.Nodup → ∀ (coll : List Doc) (d : Doc), d ∈ docs → d ∈ upsertAll docs coll := by
  induction hid with
  | nil => intro _ coll d hd; cases hd
  | @cons d1 o1 docs2 ids2 hd1 htail ih =>
      intro hnd coll d hd
      rw [upsertAll_cons, hd1]
      rcases List.mem_cons.mp hd with hd0 | hd0
      · subst hd0
        exact mem_upsertAll_preserve docs2 ids2 htail _ d o1
          (mem_replaceOneUpsert_self coll _ d) hd1 (List.nodup_cons.mp hnd).1
      · exact ih (List.nodup_cons.mp hnd).2 _ d hd0

theorem converge_coll (docs : List Doc) (ids : List ObjectID)
    (hid : List.Forall₂ (fun d oid => getId d = GoVal.vobjid oid) docs ids)
    (coll : List Doc) :
    (∀ d ∈ (deleteNotIn ids (upsertAll docs coll)).1, idAmong ids d = true) ∧
    (∀ oid ∈ ids, hasId (deleteNotIn ids (upsertAll docs coll)).1 oid = true) ∧
    (ids.Nodup → ∀ d ∈ docs, d ∈ (deleteNotIn ids (upsertAll docs coll)).1) := by
  refine ⟨mem_deleteNotIn ids _, ?_, ?_⟩
  · intro oid ho
    exact hasId_deleteNotIn ids _ oid ho (hasId_upsertAll_of_mem docs ids hid coll oid ho)
  · intro hnd d hd
    apply mem_deleteNotIn_of
    · exact mem_upsertAll_self docs ids hid hnd coll d hd
    · rcases forall2_mem_left docs ids hid d hd with ⟨o, ho, hgd⟩
      unfold idAmong
      exact List.any_eq_true.mpr ⟨o, ho, (idIs_vobjid_iff d o).mpr hgd⟩

theorem collGet_collSet_same (t : List (String × List Doc)) (k : String) (c : List Doc) :
    collGet (collSet t k c) k = c := by
  induction t with
  | nil =>
      show (if k = k then c else collGet [] k) = c
      rw [if_pos rfl]
  | cons p rest ih =>
      obtain ⟨k0, c0⟩ := p
      by_cases hk : k0 = k
      · simp [collSet, collGet, hk]
      · simp only [collSet, if_neg hk, collGet, if_neg hk]
        exact ih

theorem collGet_collSet_other (t : List (String × List Doc)) (k k' : String)
    (hk : k' ≠ k) (c : List Doc) :
    collGet (collSet t k c) k' = collGet t k' := by
  induction t with
  | nil =>
      show (if k = k' then c else collGet [] k') = collGet [] k'
      rw [if_neg (fun h => hk h.symm)]
  | cons p rest ih =>
      obtain ⟨k0, c0⟩ := p
      by_cases hk0 : k0 = k
      · subst hk0
        simp only [collSet, if_pos rfl, collGet]
        rw [if_neg (fun h => hk h.symm), if_neg (fun h => hk h.symm)]
      · simp only [collSet, if_neg hk0, collGet]
        by_cases h0 : k0 = k'
        · rw [if_pos h0, if_pos h0]
        · rw [if_neg h0, if_neg h0]
          exact ih

theorem processClients_converge :
    ∀ (clients : List Doc) (docs : List Doc) (ids : List ObjectID)
      (tcolls tcolls2 : List (String × List Doc))
      (summary summary2 : TemplateApplySummary),
      List.Forall₂ (fun d oid => getId d = GoVal.vobjid oid) docs ids →
      processClients docs ids clients tcolls summary = .ok (tcolls2, summary2) →
      (∀ n ∈ summary.ClientNames,
        (∀ d ∈ collGet tcolls n, idAmong ids d = true) ∧
        (∀ oid ∈ ids, hasId (collGet tcolls n) oid = true) ∧
        (ids.Nodup → ∀ d ∈ docs, d ∈ collGet tcolls n)) →
      ∀ n ∈ summary2.ClientNames,
        (∀ d ∈ collGet tcolls2 n, idAmong ids d = true) ∧
        (∀ oid ∈ ids, hasId (collGet tcolls2 n) oid = true) ∧
        (ids.Nodup → ∀ d ∈ docs, d ∈ collGet tcolls2 n) := by
  intro clients
  induction clients with
  | nil =>
      intro docs ids tcolls tcolls2 summary summary2 hid h hpre
      have h2 : (Except.ok (tcolls, summary)
          : Except String (List (String × List Doc) × TemplateApplySummary))
          = Except.ok (tcolls2, summary2) := h
      injection h2 with hp
      injection hp with hA hB
      subst hA
      subst hB
      exact hpre
  | cons c rest ih =>
      intro docs ids tcolls tcolls2 summary summary2 hid h hpre
      simp only [processClients] at h
      cases hdec : decodeClientName c with
      | error e =>
          simp only [hdec] at h
          exact Except.noConfusion h
      | ok raw =>
          simp only [hdec] at h
          by_cases htrim : goTrimSpace raw = ""
          · rw [if_pos htrim] at h
            exact ih docs ids tcolls tcolls2 _ summary2 hid h hpre
          · rw [if_neg htrim] at h
            cases hdel : deleteNotIn ids (upsertAll docs (collGet tcolls (goTrimSpace raw))) with
            | mk coll2 delCnt =>
                simp only [hdel] at h
                refine ih docs ids _ tcolls2 _ summary2 hid h ?_
                intro n hn
                by_cases hnn : n = goTrimSpace raw
                · rw [hnn, collGet_collSet_same]
                  have hc2 : coll2
                      = (deleteNotIn ids (upsertAll docs (collGet tcolls (goTrimSpace raw)))).1 := by
                    rw [hdel]
                  rw [hc2]
                  exact converge_coll docs ids hid _
                · rw [collGet_collSet_other tcolls (goTrimSpace raw) n hnn coll2]
                  have hn' : n ∈ summary.ClientNames := by
                    rcases List.mem_append.mp hn with hmem | hmem
                    · exact hmem
                    · exact absurd (List.mem_singleton.mp hmem) hnn
                  exact hpre n hn'

/-- C1 — **amended**.  After a successful `ApplyStructureTemplate`, for every
tenant it processed (every name in the returned client list), the tenant's
collection's identity set equals the sanitized template's identity set: every
stored document's `_id` is among the template IDs (everything else was
deleted), and every template ID is carried by some stored document.  The
stronger per-document claim — every sanitized template document itself
present — holds whenever the resolved template IDs are pairwise distinct; it
fails for duplicate IDs (`C1_counterexample`), where a later document
overwrites an earlier one sharing its `_id`. -/
theorem C1_amended_convergence :
    ∀ (gen : Nat → ObjectID) (st : CoreState) (templateKey targetField : String)
      (documents : List (Option Doc)) (summary : TemplateApplySummary) (st' : CoreState)
      (docs : List Doc) (ids : List ObjectID) (ctrF : Nat),
      ApplyStructureTemplate gen st templateKey documents targetField = .ok (summary, st') →
      prepareAll gen 0 0 documents = .ok (docs, ids, ctrF) →
      ∀ n ∈ summary.ClientNames,
        (∀ d ∈ collGet st'.tenantCollections n, idAmong ids d = true) ∧
        (∀ oid ∈ ids, hasId (collGet st'.tenantCollections n) oid = true) ∧
        (ids.Nodup → ∀ d ∈ docs, d ∈ collGet st'.tenantCollections n) := by
  intro gen st templateKey targetField documents summary st' docs ids ctrF h hprep
  obtain ⟨sanitized, ids2, ctrF2, tcolls2, summary0, hk, hd, hp, hs, hproc, hsum, hst⟩ :=
    apply_ok_inv gen st templateKey documents targetField summary st' h
  rw [hprep] at hp
  injection hp with hpair
  injection hpair with hA hB
  injection hB with hC hD
  subst hA
  subst hC
  have hid := prepareAll_forall2 gen documents 0 0 docs ids ctrF hprep
  subst hsum
  subst hst
  intro n hn
  have hn0 : n ∈ summary0.ClientNames := (sortStrings_perm _).mem_iff.mp hn
  exact processClients_converge _ docs ids st.tenantCollections tcolls2 _ summary0
    hid hproc (fun m hm => absurd hm (List.not_mem_nil m)) n hn0

/-- Witness for the amended C1 at a concrete input: one matched tenant, one
template document; the tenant collection afterwards carries exactly the
template's ID and, the single ID being trivially duplicate-free, the
sanitized document itself. -/
theorem C1_amended_witness :
    (∀ d ∈ collGet
        [("acme", [[("slug", GoVal.vstr ""), ("_id", GoVal.vobjid (List.replicate 12 0))]])]
        "acme",
      idAmong [List.replicate 12 0] d = true) ∧
    (∀ oid ∈ [List.replicate 12 0],
      hasId (collGet
        [("acme", [[("slug", GoVal.vstr ""), ("_id", GoVal.vobjid (List.replicate 12 0))]])]
        "acme") oid = true) ∧
    (([List.replicate 12 0] : List ObjectID).Nodup →
      ∀ d ∈ [[("slug", GoVal.vstr ""), ("_id", GoVal.vobjid (List.replicate 12 0))]],
        d ∈ collGet
          [("acme", [[("slug", GoVal.vstr ""), ("_id", GoVal.vobjid (List.replicate 12 0))]])]
          "acme") :=
  C1_amended_convergence (fun _ => List.replicate 12 0)
    { dbClients := [[("client_name", GoVal.vstr "acme"),
        ("structure_template", GoVal.vstr "t1")]],
      structureTemplates := [], tenantCollections := [] }
    "t1" "" [some [("slug", GoVal.vstr "home")]]
    { TemplateKey := "t1", TargetField := "structure_template", ClientNames := ["acme"],
      UpdatedDocuments := 1, DeletedDocuments := 0 }
    { dbClients := [[("client_name", GoVal.vstr "acme"),
        ("structure_template", GoVal.vstr "t1")]],
      structureTemplates := [("t1",
        [[("slug", GoVal.vstr ""), ("_id", GoVal.vobjid (List.replicate 12 0))]])],
      tenantCollections := [("acme",
        [[("slug", GoVal.vstr ""), ("_id", GoVal.vobjid (List.replicate 12 0))]])] }
    [[("slug", GoVal.vstr ""), ("_id", GoVal.vobjid (List.replicate 12 0))]]
    [List.replicate 12 0] 1 rfl rfl "acme" (by simp)

set_option maxHeartbeats 1000000 in
set_option maxRecDepth 4000 in
/-- C1 — **counterexample** to "every template document is present": two
template documents carry the same explicit `_id`; the apply succeeds and the
tenant ends up with only the second sanitized document — the first (its
`slug` document) has been overwritten by the `ReplaceOne` of the second and
is absent from the processed tenant's collection. -/
theorem C1_counterexample :
    (ApplyStructureTemplate (fun _ => List.replicate 12 0)
        { dbClients := [[("client_name", GoVal.vstr "acme"),
            ("structure_template", GoVal.vstr "t1")]],
          structureTemplates := [], tenantCollections := [] }
        "t1"
        [some [("_id", GoVal.vstr "652f781b0b0f5f6c1b3dd111"), ("slug", GoVal.vstr "home")],
         some [("_id", GoVal.vstr "652f781b0b0f5f6c1b3dd111"), ("title", GoVal.vstr "x")]]
        ""
      = .ok ({ TemplateKey := "t1", TargetField := "structure_template",
               ClientNames := ["acme"], UpdatedDocuments := 2, DeletedDocuments := 0 },
             { dbClients := [[("client_name", GoVal.vstr "acme"),
                 ("structure_template", GoVal.vstr "t1")]],
               structureTemplates := [("t1",
                 [[("_id", GoVal.vobjid [101, 47, 120, 27, 11, 15, 95, 108, 27, 61, 209, 17]),
                   ("slug", GoVal.vstr "")],
                  [("_id", GoVal.vobjid [101, 47, 120, 27, 11, 15, 95, 108, 27, 61, 209, 17]),
                   ("title", GoVal.vstr "")]])],
               tenantCollections := [("acme",
                 [[("_id", GoVal.vobjid [101, 47, 120, 27, 11, 15, 95, 108, 27, 61, 209, 17]),
                   ("title", GoVal.vstr "")]])] })) ∧
    (prepareAll (fun _ => List.replicate 12 0) 0 0
        [some [("_id", GoVal.vstr "652f781b0b0f5f6c1b3dd111"), ("slug", GoVal.vstr "home")],
         some [("_id", GoVal.vstr "652f781b0b0f5f6c1b3dd111"), ("title", GoVal.vstr "x")]]
      = .ok ([[("_id", GoVal.vobjid [101, 47, 120, 27, 11, 15, 95, 108, 27, 61, 209, 17]),
               ("slug", GoVal.vstr "")],
              [("_id", GoVal.vobjid [101, 47, 120, 27, 11, 15, 95, 108, 27, 61, 209, 17]),
               ("title", GoVal.vstr "")]],
             [[101, 47, 120, 27, 11, 15, 95, 108, 27, 61, 209, 17],
              [101, 47, 120, 27, 11, 15, 95, 108, 27, 61, 209, 17]], 0)) ∧
    ([("_id", GoVal.vobjid [101, 47, 120, 27, 11, 15, 95, 108, 27, 61, 209, 17]),
      ("slug", GoVal.vstr "")] : Doc)
      ∉ ([[("_id", GoVal.vobjid [101, 47, 120, 27, 11, 15, 95, 108, 27, 61, 209, 17]),
           ("title", GoVal.vstr "")]] : List Doc) :=
  ⟨rfl, rfl, by simp⟩
